import Mathlib

/-!
Rate limiter: admission scripts, period resolver and facade.

A shallow embedding of `limiter/algorithm.go` (the three Lua procedures that run
inside the store, and the period resolver) and of the facade operations of
`limiter/limiter.go` (`Check`, `CheckQuota`, `PutConfig`, `GetConfig`,
`DelConfig`).

Conventions of the embedding.

* A Lua procedure runs atomically inside the store, so it is a function from
  the store before the call to the store after it together with its reply.
* Lua numbers are doubles, which hold every integer up to 2^53 exactly.
  Timestamps, window lengths and counters stay below that and are modelled by
  the integers themselves. A limit is whatever `int64` the configuration
  holds, so the conversion `tonumber` of a limit is modelled with its
  rounding, and so is the conversion of that number back to the integer of the
  reply and the `int64` subtraction that `Limiter.Check` makes with it.
* A bucket key is the string `service .. "_quota_" .. timestamp` (or `_rate_`).
  Lua prints an integer of fewer than 15 digits exactly, so the three
  components determine the string and the string determines them, and the key
  is modelled by the triple.
* The values a rule list carries are those `Limiter.Check` passes: timestamps
  and window lengths from the period resolver, limits from the configuration.
-/

namespace RateLimiter

/-! ## The store -/

/-- Classification of a bucket: the infix of its key and the tag of a reply record. -/
inductive Classify where
  | quota
  | rate
deriving DecidableEq, Repr

/-- Text of a classification, as the procedures write it into keys and replies. -/
def Classify.name : Classify → String
  | Classify.quota => "quota"
  | Classify.rate => "rate"

/-- Key of a bucket, standing for the string `service_classify_timestamp`. -/
structure BucketKey where
  service : String
  classify : Classify
  timestamp : Int
deriving DecidableEq, Repr

/-- A bucket: a counter, created at 0 by SETNX and changed only by INCR, and
its time to live in seconds (`none` when the key never expires). -/
structure Bucket where
  value : Nat
  ttl : Option Int
deriving DecidableEq, Repr

/-- The bucket keys of the store; an absent key is `none`. -/
abbrev Store := BucketKey → Option Bucket

/-- Store with no key. -/
def Store.empty : Store := fun _ => none

/-- Write (or with `none`: delete) one key. -/
def Store.put (s : Store) (k : BucketKey) (b : Option Bucket) : Store :=
  fun k' => if k' = k then b else s k'

/-- Consumption recorded in a bucket, an absent key read as 0. -/
def Store.consumption (s : Store) (k : BucketKey) : Nat :=
  match s k with
  | some b => b.value
  | none => 0

/-- Redis `SETNX key 0`: create the key with value 0 and no expiry when it is
absent; the reply is 1 when the key was created and 0 otherwise. -/
def SETNX (s : Store) (k : BucketKey) : Store × Nat :=
  match s k with
  | some _ => (s, 0)
  | none => (s.put k (some ⟨0, none⟩), 1)

/-- Redis `EXPIRE key seconds`: set the time to live of an existing key; a
time to live that is not positive deletes the key. -/
def EXPIRE (s : Store) (k : BucketKey) (seconds : Int) : Store :=
  match s k with
  | none => s
  | some b => if seconds ≤ 0 then s.put k none else s.put k (some ⟨b.value, some seconds⟩)

/-- Redis `GET key`: the value of the key, `none` (Lua `false`) when absent. -/
def GET (s : Store) (k : BucketKey) : Option Nat :=
  match s k with
  | some b => some b.value
  | none => none

/-- Redis `INCR key`: add one to the value, an absent key counting as 0 and
being created without expiry; the time to live of an existing key is kept. -/
def INCR (s : Store) (k : BucketKey) : Store :=
  match s k with
  | some b => s.put k (some ⟨b.value + 1, b.ttl⟩)
  | none => s.put k (some ⟨1, none⟩)

/-! ## Replies -/

/-- One element of the flat reply list of a procedure, as the Go client sees
it: an `int64` or a `string`. -/
inductive RVal where
  | int (n : Int)
  | str (s : String)
deriving DecidableEq, Repr

/-- Outcome of running a procedure: the store afterwards and the reply, `none`
when the Lua code raised a runtime error (the writes made before the error stay). -/
structure ScriptResult where
  store : Store
  reply : Option (List RVal)

/-! ## Lua numbers -/

/-- Spacing of the doubles around the natural number `a`: the least power of
two `u`, starting from `u`, with `a / u < 2^53`. -/
def ulpFrom : Nat → Nat → Nat → Nat
  | 0, u, _ => u
  | fuel + 1, u, a => if a / u < 9007199254740992 then u else ulpFrom fuel (2 * u) a

/-- The double nearest to the natural number `a`, a tie going to the even
mantissa. -/
def roundToDouble (a : Nat) : Nat :=
  let u := ulpFrom a 1 a
  let q := a / u
  let r := a % u
  if 2 * r < u then q * u
  else if u < 2 * r then (q + 1) * u
  else if q % 2 = 0 then q * u else (q + 1) * u

/-- Lua `tonumber` of the decimal text of an integer: the integer itself up to
magnitude 2^53, the nearest double beyond. -/
def tonumber (n : Int) : Int :=
  if -9007199254740992 ≤ n ∧ n ≤ 9007199254740992 then n
  else if 0 ≤ n then (roundToDouble n.natAbs : Int) else -(roundToDouble n.natAbs : Int)

/-- Two's-complement wrap of a Go `int64`. -/
def wrapInt64 (n : Int) : Int :=
  (n + 9223372036854775808) % 18446744073709551616 - 9223372036854775808

/-- The integer that a reply carries for the Lua number `n`. The store converts
a number of a reply with the C cast to `long long`, which is exact within
`int64`. The one number beyond that a limit can give is 2^63 (the Lua number of
a limit of 2^63 − 512 or more), where C leaves the cast undefined; the value
taken here is the one x86-64 produces, −2^63. -/
def replyInteger (n : Int) : Int :=
  if -9223372036854775808 ≤ n ∧ n < 9223372036854775808 then n else -9223372036854775808

/-! ## multicounterScript -/

/-- Local variables of `multicounterScript` that live across loop iterations. -/
structure MultiState where
  store : Store
  timestamp : Int
  ttl : Int
  incr_keys : List BucketKey
  check : Bool
  result : List RVal
  success_result : List RVal
  raised : Bool

/-- State at loop entry (lines 112-122). -/
def MultiState.init (s : Store) : MultiState :=
  ⟨s, 0, 0, [], true, [], [RVal.int 1], false⟩

/-- Key of segment `i` of a rate rule (line 138):
`service .. "_rate_" .. timestamp - i * ttl * 1000 / 10`. -/
def rateSegKey (service : String) (timestamp ttl : Int) (i : Nat) : BucketKey :=
  ⟨service, Classify.rate, timestamp - (i : Int) * ttl * 1000 / 10⟩

/-- The inner loop `for i=0,9` (lines 136-143): sum of the segments that exist. -/
def rateConsume (s : Store) (service : String) (timestamp ttl : Int) : Nat :=
  (List.range 10).foldl
    (fun consume i =>
      match GET s (rateSegKey service timestamp ttl i) with
      | some ret => consume + ret
      | none => consume)
    0

/-- Body of the rate branch (lines 130-156). -/
def rateBranch (service : String) (value : Int) (st : MultiState) : MultiState :=
  let rate := tonumber value
  let key_rate_comsume : BucketKey := ⟨service, Classify.rate, st.timestamp⟩
  let r := SETNX st.store key_rate_comsume
  let store := if r.2 = 1 then EXPIRE r.1 key_rate_comsume st.ttl else r.1
  let consume := rateConsume store service st.timestamp st.ttl
  if (consume : Int) < rate then
    { st with
      store := store
      incr_keys := st.incr_keys ++ [key_rate_comsume]
      success_result := st.success_result ++
        [RVal.str "rate", RVal.int st.ttl, RVal.int (replyInteger rate),
          RVal.int ((consume : Int) + 1)] }
  else
    { st with
      store := store
      check := false
      result := st.result ++
        [RVal.int 0, RVal.str "rate", RVal.int st.ttl, RVal.int (replyInteger rate)] }

/-- Body of the quota branch (lines 158-177). `tonumber` of a missing key is
`nil`, and comparing `nil` with a number raises a Lua error. -/
def quotaBranch (service : String) (value : Int) (st : MultiState) : MultiState :=
  let quota := tonumber value
  let key_quota_comsume : BucketKey := ⟨service, Classify.quota, st.timestamp⟩
  let r := SETNX st.store key_quota_comsume
  let store := if r.2 = 1 then EXPIRE r.1 key_quota_comsume st.ttl else r.1
  match GET store key_quota_comsume with
  | none => { st with store := store, raised := true }
  | some consume =>
    if (consume : Int) < quota then
      { st with
        store := store
        incr_keys := st.incr_keys ++ [key_quota_comsume]
        success_result := st.success_result ++
          [RVal.str "quota", RVal.int st.ttl, RVal.int (replyInteger quota),
            RVal.int ((consume : Int) + 1)] }
    else
      { st with
        store := store
        check := false
        result := st.result ++
          [RVal.int 0, RVal.str "quota", RVal.int st.ttl, RVal.int (replyInteger quota)] }

/-- One iteration of the loop over `ARGV` after the `check` test (lines 128-183). -/
def multicounterBody (service : String) (quota_nums : Nat) (index : Nat) (value : Int)
    (st : MultiState) : MultiState :=
  if index % 3 = 0 then
    if index > quota_nums * 3 then rateBranch service value st
    else quotaBranch service value st
  else if index % 3 = 1 then { st with timestamp := value }
  else { st with ttl := value }

/-- The loop `for index, value in pairs(ARGV)` (lines 124-184), `index` being
the index of the head of the remaining arguments; it stops when `check` is
false and when an error was raised. -/
def multicounterLoop (service : String) (quota_nums : Nat) :
    Nat → List Int → MultiState → MultiState
  | _, [], st => st
  | index, value :: rest, st =>
    if st.check = false ∨ st.raised = true then st
    else multicounterLoop service quota_nums (index + 1) rest
      (multicounterBody service quota_nums index value st)

/-- The procedure `multicounterScript`: `KEYS = [service, quota_nums, rate_nums]`
(`rate_nums` is read and never used) and `ARGV` the flat list of numbers. -/
def multicounterScript (s : Store) (service : String) (quota_nums : Nat) (ARGV : List Int) :
    ScriptResult :=
  let st := multicounterLoop service quota_nums 1 ARGV (MultiState.init s)
  if st.raised then ⟨st.store, none⟩
  else if st.check then
    ⟨st.incr_keys.foldl INCR st.store, some st.success_result⟩
  else ⟨st.store, some st.result⟩

/-! ## slidingwindowScript -/

/-- A Lua value as far as the order comparison distinguishes them. -/
inductive LuaVal where
  | num (n : Int)
  | str (t : String)
deriving DecidableEq, Repr

/-- Order of two Lua strings (`strcoll` in the C locale): character by
character, a proper initial part of a string being smaller than the string. -/
def luaStrLt : List Char → List Char → Bool
  | [], [] => false
  | [], _ :: _ => true
  | _ :: _, [] => false
  | a :: as, b :: bs =>
    if a.toNat < b.toNat then true
    else if b.toNat < a.toNat then false
    else luaStrLt as bs

/-- Lua 5.1 `a < b`: two numbers are compared as numbers, two strings as
strings, and any other pair raises "attempt to compare" (`none`). -/
def luaLt : LuaVal → LuaVal → Option Bool
  | LuaVal.num a, LuaVal.num b => some (decide (a < b))
  | LuaVal.str a, LuaVal.str b => some (luaStrLt a.data b.data)
  | _, _ => none

/-- Assignment `name = value` to a variable that no `local` declares. Redis
runs a script with the table of globals protected: the assignment raises
"Script attempted to create global variable" (`none`) and nothing is stored. -/
def assignGlobal {α : Type} (_name : String) (_value : α) : Option α :=
  none

/-- The loop `for i=0,9` of `slidingwindowScript` (lines 83-91) over the
remaining values of `i`: it overwrites `key_consume` with the key of segment
`i`, assigns the reply of `GET` to the undeclared variable `ret` (line 85),
and leaves at the first missing segment. The result is `none` when the loop
raises, else the last `key_consume` and the sum `consume`. -/
def slidingwindowLoop (s : Store) ( key_prefix : String × Classify)
    (consume_timestamp_ms consume_ttl : Int) :
    List Nat → BucketKey × Nat → Option (BucketKey × Nat)
  | [], st => some st
  | i :: more, st =>
    let key_consume : BucketKey :=
      ⟨ key_prefix.1, key_prefix.2, consume_timestamp_ms - (i : Int) * consume_ttl * 1000 / 10⟩
    match assignGlobal "ret" (GET s key_consume) with
    | none => none
    | some none => some (key_consume, st.2)
    | some (some ret) => slidingwindowLoop s key_prefix consume_timestamp_ms consume_ttl more
        (key_consume, st.2 + ret)

/-- The procedure `slidingwindowScript`. `KEYS[1]` is the key prefix
`service_classify`, `quota` is the reply of `GET key_prefix_config_period` (a
string, or `none` for Lua `false`), `ARGV = [timestamp, ttl]`. The reply is
`[total, consume]`. -/
def slidingwindowScript (s : Store) (quota : Option String) ( key_prefix : String × Classify)
    (timestamp ttl : Int) : ScriptResult :=
  let consume_timestamp_ms := timestamp * 1000
  let consume_ttl := ttl
  match quota with
  | none => ⟨s, some [RVal.int 0, RVal.int 0]⟩
  | some quota =>
    let key_consume : BucketKey := ⟨ key_prefix.1, key_prefix.2, consume_timestamp_ms⟩
    let r := SETNX s key_consume
    match slidingwindowLoop r.1 key_prefix consume_timestamp_ms consume_ttl (List.range 10)
      (key_consume, 0) with
    | none => ⟨r.1, none⟩
    | some st =>
      match luaLt (LuaVal.num st.2) (LuaVal.str quota) with
      | none => ⟨r.1, none⟩
      | some lt =>
        let store := if lt then INCR r.1 st.1 else r.1
        let consume := if lt then st.2 + 1 else st.2
        let store := if r.2 = 1 then EXPIRE store st.1 consume_ttl else store
        ⟨store, some [RVal.str quota, RVal.int consume]⟩

/-! ## Rules as the facade passes them -/

/-- One rule as `Limiter.Check` resolves it: aligned timestamp in milliseconds,
window length in seconds, configured limit. -/
structure Rule where
  timestamp : Int
  ttl : Int
  limit : Int
deriving DecidableEq, Repr

/-- The flat argument list `luaArgs` that `Limiter.Check` builds (lines 120-138):
`append(luaArgs, timestampMS, ttl, value)` for each rule. -/
def luaArgs : List Rule → List Int
  | [] => []
  | r :: rs => r.timestamp :: r.ttl :: r.limit :: luaArgs rs

/-- The call of `multicounterScript` made by `Limiter.Check` (lines 144-155) for
the quota rules followed by the rate rules of one client. -/
def multicounter (s : Store) (service : String) (quotaRules rateRules : List Rule) :
    ScriptResult :=
  multicounterScript s service quotaRules.length (luaArgs (quotaRules ++ rateRules))

/-- Bucket that a rule of the given classification addresses. -/
def ruleKey (service : String) (c : Classify) (r : Rule) : BucketKey :=
  ⟨service, c, r.timestamp⟩

/-- Sum of the ten buckets at `timestamp - i * (ttl * 1000 / 10)`, `i = 0..9`,
an absent bucket counted as 0. -/
def slidingSum (s : Store) (service : String) (timestamp ttl : Int) : Nat :=
  ((List.range 10).map
    (fun (i : Nat) =>
      s.consumption ⟨service, Classify.rate, timestamp - (i : Int) * (ttl * 1000 / 10)⟩)).sum

/-- Consumption of a rule in a store: the bucket of a quota rule, the sliding
sum of a rate rule. -/
def ruleConsumption (s : Store) (service : String) : Classify → Rule → Nat
  | Classify.quota, r => s.consumption (ruleKey service Classify.quota r)
  | Classify.rate, r => slidingSum s service r.timestamp r.ttl

/-- A rule passes in a store when its consumption is below its limit, the
limit being the Lua number the script compares with. -/
def passes (s : Store) (service : String) (cr : Classify × Rule) : Prop :=
  (ruleConsumption s service cr.1 cr.2 : Int) < tonumber cr.2.limit

instance (s : Store) (service : String) (cr : Classify × Rule) :
    Decidable (passes s service cr) := by
  unfold passes; infer_instance

/-- The rules of one evaluation in evaluation order, each with its classification. -/
def classified (quotaRules rateRules : List Rule) : List (Classify × Rule) :=
  quotaRules.map (fun r => (Classify.quota, r)) ++ rateRules.map (fun r => (Classify.rate, r))

/-! ## Result decoding of `Limiter.Check` -/

/-- The Go struct `LimiterRes`. -/
structure LimiterRes where
  Over : Bool
  Classify : String
  Rest : Int
  Interval : Int
  Limit : Int
deriving DecidableEq, Repr

/-- Go `limiterRes[i].(int64)`: panics (`none`) when out of range or not an integer. -/
def asInt64 (limiterRes : List RVal) (i : Nat) : Option Int :=
  match limiterRes[i]? with
  | some (RVal.int n) => some n
  | _ => none

/-- Go `limiterRes[i].(string)`: panics (`none`) when out of range or not a string. -/
def asString (limiterRes : List RVal) (i : Nat) : Option String :=
  match limiterRes[i]? with
  | some (RVal.str t) => some t
  | _ => none

/-- One record of the success loop of `Limiter.Check` (lines 176-183). -/
def decodeRecord (limiterRes : List RVal) (index : Nat) : Option LimiterRes := do
  let classify ← asString limiterRes (index * 4 + 1)
  let limit ← asInt64 limiterRes (index * 4 + 3)
  let used ← asInt64 limiterRes (index * 4 + 4)
  let interval ← asInt64 limiterRes (index * 4 + 2)
  pure ⟨false, classify, wrapInt64 (limit - used), interval, limit⟩

/-- The loop `for index := 0; index < len(limiterRes)/4; index++` of
`Limiter.Check` (lines 175-184), with `count` iterations left. -/
def checkLoop (limiterRes : List RVal) : Nat → Nat → Option (List LimiterRes)
  | _, 0 => some []
  | index, count + 1 => do
    let res ← decodeRecord limiterRes index
    let more ← checkLoop limiterRes (index + 1) count
    pure (res :: more)

/-- Lines 162-189 of `Limiter.Check`: the raw reply of the procedure mapped to
the list of `LimiterRes`; `none` is a Go panic on a malformed reply. -/
def checkResults (limiterRes : List RVal) : Option (List LimiterRes) := do
  let head ← asInt64 limiterRes 0
  if head = 0 then
    let classify ← asString limiterRes 1
    let interval ← asInt64 limiterRes 2
    let limit ← asInt64 limiterRes 3
    pure [⟨true, classify, 0, interval, limit⟩]
  else
    checkLoop limiterRes 0 (limiterRes.length / 4)

/-! ## Period resolver

`now` is the current time in milliseconds since the Unix epoch. The local zone
is taken to be UTC, so that parsing the formatted UTC time in the local zone
gives the time back, truncated to the finest field of the layout. -/

/-- The constant `rateSegment`. -/
def rateSegment : Int := 10

/-- Leap years of the Gregorian calendar. -/
def isLeapYear (year : Nat) : Bool :=
  year % 4 = 0 && (year % 100 != 0 || year % 400 = 0)

/-- Number of days of a month (1 = January). -/
def daysInMonth (year month : Nat) : Nat :=
  if month = 2 then (if isLeapYear year then 29 else 28)
  else if month = 4 ∨ month = 6 ∨ month = 9 ∨ month = 11 then 30
  else 31

/-- Walk the calendar month by month from the month `year`-`month`, whose first
day is day number `start`, to the month that contains day number `day`; the
result is the day number of the first day of that month. -/
def monthFloorFrom : Nat → Nat → Nat → Nat → Nat → Nat
  | 0, _, _, start, _ => start
  | fuel + 1, year, month, start, day =>
    if day < start + daysInMonth year month then start
    else monthFloorFrom fuel (if month = 12 then year + 1 else year)
      (if month = 12 then 1 else month + 1) (start + daysInMonth year month) day

/-- Day number (days since 1970-01-01) of the first day of the calendar month
that contains day number `day`. -/
def monthStartDay (day : Nat) : Nat :=
  monthFloorFrom (day + 1) 1970 1 0 day

/-- Day number of the first day of calendar month number `n`, month 0 being
January 1970, month 1 February 1970, and so on. -/
def monthStartOf : Nat → Nat
  | 0 => 0
  | n + 1 => monthStartOf n + daysInMonth (1970 + n / 12) (n % 12 + 1)

/-- Unix time in milliseconds of
`time.ParseInLocation(timeFormat, time.Now().UTC().Format(timeFormat), loc)`:
the current time with every field the layout does not print reset (day to 1,
clock fields to 0). Only the layouts of the resolver occur; the last case is
the empty layout of an unrecognised rate period, which parses to January 1 of
year 0. Years are taken to have four digits. -/
def parseFormatted (timeFormat : String) (now : Nat) : Int :=
  if timeFormat = "2006-01-02_15:04:05.000" then (now : Int)
  else if timeFormat = "2006-01-02_15:04:05" then ((now / 1000 * 1000 : Nat) : Int)
  else if timeFormat = "2006-01-02_15:04" then ((now / 60000 * 60000 : Nat) : Int)
  else if timeFormat = "2006-01-02_15" then ((now / 3600000 * 3600000 : Nat) : Int)
  else if timeFormat = "2006-01-02" then ((now / 86400000 * 86400000 : Nat) : Int)
  else if timeFormat = "2006-01" then
    ((monthStartDay (now / 86400000) * 86400000 : Nat) : Int)
  else -62167219200000

/-- The function `ConvertTime`: `timeNow.UnixNano() / 1e6`, with the `int64`
nanosecond count wrapping and the division truncating. -/
def ConvertTime (timeFormat : String) (now : Nat) : Int :=
  (wrapInt64 (parseFormatted timeFormat now * 1000000)).tdiv 1000000

/-- The function `ConvertQuotaPeriod`: aligned timestamp in milliseconds and
window length in seconds. -/
def ConvertQuotaPeriod (period : String) (now : Nat) : Int × Int :=
  if period = "second" then (ConvertTime "2006-01-02_15:04:05" now, 1)
  else if period = "minute" then (ConvertTime "2006-01-02_15:04" now, 1 * 60)
  else if period = "hour" then (ConvertTime "2006-01-02_15" now, 1 * 60 * 60)
  else if period = "day" then (ConvertTime "2006-01-02" now, 1 * 60 * 60 * 24)
  else if period = "month" then (ConvertTime "2006-01" now, 1 * 60 * 60 * 24 * 31)
  else (0, 0)

/-- The `switch` of `ConvertRatePeriod` (lines 238-256): `(ttl, timeFormat)`,
both left at their zero values for an unrecognised period. -/
def ratePeriodFormat (period : String) : Int × String :=
  if period = "second" then (1, "2006-01-02_15:04:05.000")
  else if period = "minute" then (1 * 60, "2006-01-02_15:04:05")
  else if period = "hour" then (1 * 60 * 60, "2006-01-02_15:04")
  else if period = "day" then (1 * 60 * 60 * 24, "2006-01-02_15")
  else if period = "month" then (1 * 60 * 60 * 24 * 31, "2006-01-02")
  else (0, "")

/-- The function `ConvertRatePeriod`; `none` is the Go run-time panic of an
integer division by zero. -/
def ConvertRatePeriod (period : String) (now : Nat) : Option (Int × Int) :=
  let ttl := (ratePeriodFormat period).1
  let timeFormat := (ratePeriodFormat period).2
  let segment : Int := (ttl * 1000).tdiv rateSegment
  if segment = 0 then none
  else some ((ConvertTime timeFormat now).tdiv segment * segment, ttl)

/-! ## Rule-level view of the loop -/

/-- The three loop iterations that consume one rule: set `timestamp`, set
`ttl`, run the branch of the rule's classification. -/
def evalRule (service : String) (cr : Classify × Rule) (st : MultiState) : MultiState :=
  match cr.1 with
  | Classify.quota =>
    quotaBranch service cr.2.limit { st with timestamp := cr.2.timestamp, ttl := cr.2.ttl }
  | Classify.rate =>
    rateBranch service cr.2.limit { st with timestamp := cr.2.timestamp, ttl := cr.2.ttl }

/-- The loop read rule by rule. -/
def evalRules (service : String) : List (Classify × Rule) → MultiState → MultiState
  | [], st => st
  | cr :: crs, st =>
    if st.check = false ∨ st.raised = true then st
    else evalRules service crs (evalRule service cr st)

/-- Record that a passing rule appends to `success_result`. -/
def successRecord (s : Store) (service : String) (cr : Classify × Rule) : List RVal :=
  [RVal.str cr.1.name, RVal.int cr.2.ttl, RVal.int (replyInteger (tonumber cr.2.limit)),
    RVal.int ((ruleConsumption s service cr.1 cr.2 : Int) + 1)]

/-- Records of a list of passing rules, in order. -/
def successRecords (s : Store) (service : String) : List (Classify × Rule) → List RVal
  | [] => []
  | cr :: crs => successRecord s service cr ++ successRecords s service crs

/-- Record that the first failing rule leaves in `result`. -/
def overRecord (cr : Classify × Rule) : List RVal :=
  [RVal.int 0, RVal.str cr.1.name, RVal.int cr.2.ttl,
    RVal.int (replyInteger (tonumber cr.2.limit))]

/-- Create-if-absent with expiry, the net effect of `SETNX` followed by the
guarded `EXPIRE`. -/
def createIfAbsent (s : Store) (k : BucketKey) (ttl : Int) : Store :=
  match s k with
  | some _ => s
  | none => if ttl ≤ 0 then s else s.put k (some ⟨0, some ttl⟩)

/-- The store `s2` is `s1` with some absent buckets of the listed rules created
at value 0 with the rule's time to live. -/
def CreatedBy (service : String) (crs : List (Classify × Rule)) (s1 s2 : Store) : Prop :=
  ∀ k, s2 k = s1 k ∨
    (s1 k = none ∧ ∃ cr ∈ crs, ruleKey service cr.1 cr.2 = k ∧ s2 k = some ⟨0, some cr.2.ttl⟩)

/-- Bucket keys of the rules of one evaluation, in evaluation order. -/
def ruleKeys (service : String) (quotaRules rateRules : List Rule) : List BucketKey :=
  (classified quotaRules rateRules).map (fun cr => ruleKey service cr.1 cr.2)

/-- Result that `Check` reports for a rule that passed. -/
def passResult (s : Store) (service : String) (cr : Classify × Rule) : LimiterRes :=
  ⟨false, cr.1.name,
    wrapInt64 (replyInteger (tonumber cr.2.limit)
      - ((ruleConsumption s service cr.1 cr.2 : Int) + 1)),
    cr.2.ttl, replyInteger (tonumber cr.2.limit)⟩

/-- Store after `n` serial evaluations of the same rule lists. -/
def serial (service : String) (quotaRules rateRules : List Rule) (s : Store) : Nat → Store
  | 0 => s
  | n + 1 =>
    (multicounter (serial service quotaRules rateRules s n) service quotaRules rateRules).store

/-! ## Stores of the examples -/

/-- Store of the abort example: the minute quota bucket of client `c1` already
holds 3, nothing else exists. -/
def abortStore : Store :=
  Store.empty.put ⟨"c1", Classify.quota, 60000⟩ (some ⟨3, some 60⟩)

/-- Store of the commit example: the minute quota bucket of `c1` holds 2 and
two segments of its minute rate window hold 1 and 2. -/
def commitStore : Store :=
  ((Store.empty.put ⟨"c1", Classify.quota, 1704067260000⟩ (some ⟨2, some 60⟩)).put
    ⟨"c1", Classify.rate, 1704067266000⟩ (some ⟨1, some 60⟩)).put
    ⟨"c1", Classify.rate, 1704067260000⟩ (some ⟨2, some 60⟩)

/-- Store of the attribution example: the minute quota bucket of `c1` is at its
limit 3 and its hour quota bucket holds 1. -/
def overStore : Store :=
  (Store.empty.put ⟨"c1", Classify.quota, 1704067260000⟩ (some ⟨3, some 60⟩)).put
    ⟨"c1", Classify.quota, 1704067200000⟩ (some ⟨1, some 3600⟩)

/-- Store of the creation example: the quota bucket of `c1` is absent and two
segments of its minute rate window hold 1 each. -/
def createStore : Store :=
  (Store.empty.put ⟨"c1", Classify.rate, 1704067266000⟩ (some ⟨1, some 60⟩)).put
    ⟨"c1", Classify.rate, 1704067260000⟩ (some ⟨1, some 60⟩)

/-- Store of the sliding example: a 60 s window at segment 1704067320000 with
consumption 2, 1 and 1 in the segments 0, 3 and 9 back. -/
def slideStore : Store :=
  ((Store.empty.put ⟨"c1", Classify.rate, 1704067320000⟩ (some ⟨2, some 60⟩)).put
    ⟨"c1", Classify.rate, 1704067302000⟩ (some ⟨1, some 60⟩)).put
    ⟨"c1", Classify.rate, 1704067266000⟩ (some ⟨1, some 60⟩)

/-- The sliding example with two older segments (10 and 11 back) filled as well. -/
def slideStoreOlder : Store :=
  (slideStore.put ⟨"c1", Classify.rate, 1704067260000⟩ (some ⟨4, some 60⟩)).put
    ⟨"c1", Classify.rate, 1704067254000⟩ (some ⟨7, none⟩)

/-! ## counterScript and `Limiter.CheckQuota` -/

/-- The procedure `counterScript`. `KEYS[1]` is the key prefix
`service_classify`, `quota` is the reply of `GET key_prefix_config_period` (a
string, or `none` for Lua `false`), `ARGV = [timestamp, ttl]`. The reply of
`GET key_consume` is the decimal string of the counter; `consume < quota`
compares two strings, and `consume + 1` is a number. The reply is
`[total, consume]`, a string where the Lua value is a string. -/
def counterScript (s : Store) (quota : Option String) ( key_prefix : String × Classify)
    (timestamp ttl : Int) : ScriptResult :=
  let consume_timestamp_ms := timestamp * 1000
  let consume_ttl := ttl
  match quota with
  | none => ⟨s, some [RVal.int 0, RVal.int 0]⟩
  | some quota =>
    let key_consume : BucketKey := ⟨ key_prefix.1, key_prefix.2, consume_timestamp_ms⟩
    let r := SETNX s key_consume
    match GET r.1 key_consume with
    | none => ⟨r.1, none⟩
    | some consume =>
      match luaLt (LuaVal.str (toString consume)) (LuaVal.str quota) with
      | none => ⟨r.1, none⟩
      | some lt =>
        let store := if lt then INCR r.1 key_consume else r.1
        let reply := if lt then RVal.int ((consume : Int) + 1) else RVal.str (toString consume)
        let store := if r.2 = 1 then EXPIRE store key_consume consume_ttl else store
        ⟨store, some [RVal.str quota, reply]⟩

/-- The string keys `key_prefix_config_period` that `counterScript` and
`slidingwindowScript` read their limit from. -/
abbrev ConfigStrings := String × Classify → String → Option String

/-- The configuration hashes `{client}_{kind}`: field (period name) to value.
The values are the `int64` limits `PutConfig` writes (in decimal) and
`GetConfig` parses back. -/
abbrev ConfigHashes := String → Classify → String → Option Int

/-- The three families of keys of the store. Their key strings end in a
timestamp, in `quota` or `rate`, and in `_config_period` respectively, so no
key belongs to two families. -/
structure Redis where
  buckets : Store
  hashes : ConfigHashes
  strings : ConfigStrings

/-- Store without any key. -/
def Redis.empty : Redis := ⟨Store.empty, fun _ _ _ => none, fun _ _ => none⟩

/-- What the Go client hands back for a reply: an `int64` or a `[]interface{}`. -/
inductive GoReply where
  | int (n : Int)
  | list (l : List RVal)
deriving DecidableEq, Repr

/-- Go `ret.(int64)`: panics (`none`) when the reply is not an `int64`. -/
def GoReply.assertInt64 : GoReply → Option Int
  | GoReply.int n => some n
  | GoReply.list _ => none

/-- Outcome of `Limiter.CheckQuota`. -/
inductive QuotaOutcome where
  | rest (n : Int)
  | errOverQuato
  | errPeriodConvert
  | storeError
  | goPanic
deriving DecidableEq, Repr

/-- The `EvalSha` call of `Limiter.CheckQuota` (lines 85-92): `counterScript`
with `keyPrefix = key_quota` and the resolved time tag and TTL. -/
def CheckQuotaScript (now : Nat) (db : Redis) (key period : String) : ScriptResult :=
  counterScript db.buckets (db.strings (key, Classify.quota) period) (key, Classify.quota)
    (ConvertQuotaPeriod period now).1 (ConvertQuotaPeriod period now).2

/-- The function `Limiter.CheckQuota`: the store afterwards and the outcome. A
Lua table reply reaches Go as `[]interface{}`. -/
def CheckQuota (now : Nat) (db : Redis) (key period : String) : Redis × QuotaOutcome :=
  if (ConvertQuotaPeriod period now).1 = 0 then (db, QuotaOutcome.errPeriodConvert)
  else
    let ret := CheckQuotaScript now db key period
    let db1 : Redis := { db with buckets := ret.store }
    match ret.reply with
    | none => (db1, QuotaOutcome.storeError)
    | some l =>
      match (GoReply.list l).assertInt64 with
      | none => (db1, QuotaOutcome.goPanic)
      | some rest => if rest < 0 then (db1, QuotaOutcome.errOverQuato)
        else (db1, QuotaOutcome.rest rest)

/-! ## Configuration operations -/

/-- Redis `HSET key field value` on the hash `{client}_{kind}`. -/
def HSET (hashes : ConfigHashes) (key : String) (ext : Classify) (field : String)
    (value : Int) : ConfigHashes :=
  fun k e f => if k = key ∧ e = ext ∧ f = field then some value else hashes k e f

/-- Redis `HDEL key field`. -/
def HDEL (hashes : ConfigHashes) (key : String) (ext : Classify) (field : String) :
    ConfigHashes :=
  fun k e f => if k = key ∧ e = ext ∧ f = field then none else hashes k e f

/-- The function `Limiter.PutConfig` when no store call fails: one `HSET` per
entry of `configs`, in the order the Go loop ranges over the map. -/
def PutConfig (db : Redis) (key : String) (ext : Classify) (configs : List (String × Int)) :
    Redis :=
  { db with hashes := configs.foldl (fun h c => HSET h key ext c.1 c.2) db.hashes }

/-- The function `Limiter.GetConfig` when the store call succeeds: the map of
`HGETALL`, every value parsed as `int64`. -/
def GetConfig (db : Redis) (key : String) (ext : Classify) : String → Option Int :=
  db.hashes key ext

/-- The function `Limiter.DelConfig` when no store call fails. -/
def DelConfig (db : Redis) (key : String) (ext : Classify) (periods : List String) : Redis :=
  { db with hashes := periods.foldl (fun h p => HDEL h key ext p) db.hashes }

/-! ## `Limiter.Check` -/

/-- The errors `Limiter.Check` returns. -/
inductive CheckError where
  | errPeriodConvert
  | errEmptyConfig
  | storeError
deriving DecidableEq, Repr

/-- Outcome of `Limiter.Check`: `(err, nil)`, `(nil, list)`, or a Go panic. -/
inductive CheckOutcome where
  | error (e : CheckError)
  | results (l : List LimiterRes)
  | goPanic
deriving DecidableEq, Repr

/-- Outcome of resolving the rules of one mapping. -/
inductive Resolved where
  | rules (l : List Rule)
  | errPeriodConvert
  | goPanic
deriving DecidableEq, Repr

/-- The loop over `quotaConfig` (lines 120-126), in the order the Go loop
ranges over the map. -/
def resolveQuota (now : Nat) : List (String × Int) → Resolved
  | [] => Resolved.rules []
  | (key, value) :: more =>
    if (ConvertQuotaPeriod key now).1 = 0 then Resolved.errPeriodConvert
    else
      match resolveQuota now more with
      | Resolved.rules l =>
        Resolved.rules (⟨(ConvertQuotaPeriod key now).1, (ConvertQuotaPeriod key now).2, value⟩ :: l)
      | other => other

/-- The loop over `rateConfig` (lines 132-138). -/
def resolveRate (now : Nat) : List (String × Int) → Resolved
  | [] => Resolved.rules []
  | (key, value) :: more =>
    match ConvertRatePeriod key now with
    | none => Resolved.goPanic
    | some r =>
      if r.1 = 0 then Resolved.errPeriodConvert
      else
        match resolveRate now more with
        | Resolved.rules l => Resolved.rules (⟨r.1, r.2, value⟩ :: l)
        | other => other

/-- The function `Limiter.Check`: the bucket store afterwards and the outcome.
`quotaConfig` and `rateConfig` are the maps `HGETALL` returned for
`key_quota` and `key_rate`, as lists in the order the Go loops range over them. -/
def Check (now : Nat) (s : Store) (key : String) (quotaConfig rateConfig : List (String × Int)) :
    Store × CheckOutcome :=
  match resolveQuota now quotaConfig with
  | Resolved.errPeriodConvert => (s, CheckOutcome.error CheckError.errPeriodConvert)
  | Resolved.goPanic => (s, CheckOutcome.goPanic)
  | Resolved.rules quotaRules =>
    match resolveRate now rateConfig with
    | Resolved.errPeriodConvert => (s, CheckOutcome.error CheckError.errPeriodConvert)
    | Resolved.goPanic => (s, CheckOutcome.goPanic)
    | Resolved.rules rateRules =>
      if quotaConfig.length + rateConfig.length = 0 then
        (s, CheckOutcome.error CheckError.errEmptyConfig)
      else
        let ret := multicounter s key quotaRules rateRules
        match ret.reply with
        | none => (ret.store, CheckOutcome.error CheckError.storeError)
        | some limiterRes =>
          match checkResults limiterRes with
          | none => (ret.store, CheckOutcome.goPanic)
          | some limiterResList => (ret.store, CheckOutcome.results limiterResList)

/-! ## Serial runs of counterScript and stores of its examples -/

/-- Store after `n` serial runs of `counterScript` with the same arguments. -/
def counterRuns (quota : Option String) ( key_prefix : String × Classify) (timestamp ttl : Int)
    (s : Store) : Nat → Store
  | 0 => s
  | n + 1 =>
    (counterScript (counterRuns quota key_prefix timestamp ttl s n) quota key_prefix
      timestamp ttl).store

/-- Store of the `CheckQuota` examples: the limit of the minute quota of client
`c1` is configured as the string key `c1_quota_config_minute` with value "3",
and the bucket that `CheckQuota` addresses at 2024-01-01 02:30:00 UTC holds `c`. -/
def quotaDb (c : Nat) : Redis :=
  ⟨Store.empty.put ⟨"c1", Classify.quota, 1704076200000000⟩ (some ⟨c, some 60⟩),
    fun _ _ _ => none,
    fun k p => if k = ("c1", Classify.quota) ∧ p = "minute" then some "3" else none⟩

/-- Store of the configuration example: client `c1` has the quota mapping
hour ↦ 100, minute ↦ 7 and no other configuration. -/
def configDb : Redis :=
  PutConfig Redis.empty "c1" Classify.quota [("hour", 100), ("minute", 7)]

/-- Every bucket key of the store has a time to live. -/
def AllTTL (s : Store) : Prop :=
  ∀ k b, s k = some b → b.ttl ≠ none

/-! ## The aggregate of the rate branch and the sliding sum of section 4.3 -/

/-- The aggregate `consume` that the rate branch of `multicounterScript`
compares with the limit (lines 131-143). -/
def multicounterAggregate (s : Store) (service : String) (timestamp ttl : Int) : Nat :=
  let key_rate_comsume : BucketKey := ⟨service, Classify.rate, timestamp⟩
  let r := SETNX s key_rate_comsume
  let store := if r.2 = 1 then EXPIRE r.1 key_rate_comsume ttl else r.1
  rateConsume store service timestamp ttl

/-- Step 3 of the sliding-window algorithm as section 4.3 of the specification
words it, over the remaining segments: sum the consumption of consecutive
segments of length `ttl * 1000 / 10` walking backward from `ts`, and stop at
the first missing segment. -/
def specSlidingWalk (s : Store) (service : String) (ts ttl : Int) : List Nat → Nat → Nat
  | [], sum => sum
  | i :: more, sum =>
    match s ⟨service, Classify.rate, ts - (i : Int) * (ttl * 1000 / 10)⟩ with
    | none => sum
    | some b => specSlidingWalk s service ts ttl more (sum + b.value)

/-- The aggregate sum of the sliding-window algorithm as section 4.3 of the
specification words it: create the current segment's bucket at `ts` if it is
absent (step 2), then sum over up to 10 segments (step 3). -/
def specSlidingSum (s : Store) (service : String) (ts ttl : Int) : Nat :=
  specSlidingWalk (SETNX s ⟨service, Classify.rate, ts⟩).1 service ts ttl (List.range 10) 0

/-- Store of the gap example: of a 60 s rate window at 1704067320000 the current
segment holds 2, the segment before it is missing, and the segment two back
holds 3. -/
def gapStore : Store :=
  (Store.empty.put ⟨"c1", Classify.rate, 1704067320000⟩ (some ⟨2, some 60⟩)).put
    ⟨"c1", Classify.rate, 1704067308000⟩ (some ⟨3, some 60⟩)

/-! ## Serial evaluations of one rate rule -/

/-- Store after serial multi-counter evaluations of one rate rule with window
`ttl` and limit `limit`, issued at the timestamps of the list, in order. -/
def serialRate (service : String) (ttl limit : Int) (s : Store) : List Int → Store
  | [] => s
  | ts :: more =>
    serialRate service ttl limit (multicounter s service [] [⟨ts, ttl, limit⟩]).store more

/-- Sum of `f` over the `n` points `t - i * seg`, `i = 0..n-1`. -/
def windowSum (f : Int → Nat) (t seg : Int) (n : Nat) : Nat :=
  ((List.range n).map (fun (i : Nat) => f (t - (i : Int) * seg))).sum

/-! ## Names of the configuration keys -/

/-- Name of the configuration hash, `fmt.Sprintf("%s_%s", key, ext)`. -/
def configHashName (key : String) (ext : Classify) : String :=
  key ++ "_" ++ ext.name

/-- Name of the string key the counter procedure reads its limit from,
`key_prefix .. "_config_" .. period`, with the prefix `key_quota` that
`CheckQuota` passes. -/
def counterConfigName (key period : String) : String :=
  key ++ "_" ++ Classify.quota.name ++ "_config_" ++ period

/-! ## Lemmas on Lua numbers -/

theorem tonumber_exact (n : Int) (h1 : -9007199254740992 ≤ n) (h2 : n ≤ 9007199254740992) :
    tonumber n = n := by
  unfold tonumber
  simp [h1, h2]

theorem tonumber_nonneg (n : Int) (h : 0 ≤ n) : 0 ≤ tonumber n := by
  unfold tonumber
  by_cases hb : -9007199254740992 ≤ n ∧ n ≤ 9007199254740992
  · rw [if_pos hb]; exact h
  · rw [if_neg hb, if_pos h]
    positivity

theorem replyInteger_exact (n : Int) (h1 : -9223372036854775808 ≤ n)
    (h2 : n < 9223372036854775808) : replyInteger n = n := by
  unfold replyInteger
  simp [h1, h2]

theorem wrapInt64_exact (n : Int) (h1 : -9223372036854775808 ≤ n)
    (h2 : n < 9223372036854775808) : wrapInt64 n = n := by
  unfold wrapInt64
  omega

/-- A limit of magnitude at most 2^53 is compared and echoed as it is. -/
theorem echo_exact (n : Int) (h1 : -9007199254740992 ≤ n) (h2 : n ≤ 9007199254740992) :
    replyInteger (tonumber n) = n := by
  rw [tonumber_exact n h1 h2]
  exact replyInteger_exact n (by omega) (by omega)

/-! ## Lemmas on the store -/

theorem setnx_expire (s : Store) (k : BucketKey) (ttl : Int) :
    (if (SETNX s k).2 = 1 then EXPIRE (SETNX s k).1 k ttl else (SETNX s k).1)
      = createIfAbsent s k ttl := by
  unfold createIfAbsent SETNX EXPIRE
  cases h : s k with
  | some b => simp
  | none =>
    funext k'
    by_cases ht : ttl ≤ 0 <;> by_cases hk : k' = k <;> simp [Store.put, ht, hk, h]

theorem createIfAbsent_consumption (s : Store) (k : BucketKey) (ttl : Int) (k' : BucketKey) :
    (createIfAbsent s k ttl).consumption k' = s.consumption k' := by
  unfold createIfAbsent
  cases h : s k with
  | some b => simp
  | none =>
    by_cases ht : ttl ≤ 0
    · simp [ht]
    · simp only [ht, if_false]
      unfold Store.consumption Store.put
      by_cases hk : k' = k
      · simp [hk, h]
      · simp [hk]

theorem createIfAbsent_get_pos (s : Store) (k : BucketKey) (ttl : Int) (h : 0 < ttl) :
    GET (createIfAbsent s k ttl) k = some (s.consumption k) := by
  unfold createIfAbsent GET Store.consumption
  cases hs : s k with
  | some b => simp [hs]
  | none =>
    have ht : ¬ ttl ≤ 0 := by omega
    simp [ht, Store.put]

theorem createIfAbsent_get (s : Store) (k : BucketKey) (ttl : Int) (v : Nat)
    (h : GET (createIfAbsent s k ttl) k = some v) : v = s.consumption k := by
  rw [← createIfAbsent_consumption s k ttl k]
  unfold GET at h
  unfold Store.consumption
  cases hs : createIfAbsent s k ttl k with
  | none => simp [hs] at h
  | some b =>
    simp only [hs, Option.some.injEq] at h
    exact h.symm

theorem CreatedBy.refl (service : String) (crs : List (Classify × Rule)) (s : Store) :
    CreatedBy service crs s s := fun _ => Or.inl rfl

theorem CreatedBy.mono (service : String) (crs crs' : List (Classify × Rule)) (s1 s2 : Store)
    (hsub : ∀ cr ∈ crs, cr ∈ crs') (h : CreatedBy service crs s1 s2) :
    CreatedBy service crs' s1 s2 := by
  intro k
  rcases h k with h1 | ⟨h1, cr, hcr, hk, h2⟩
  · exact Or.inl h1
  · exact Or.inr ⟨h1, cr, hsub cr hcr, hk, h2⟩

theorem CreatedBy.consumption (service : String) (crs : List (Classify × Rule)) (s1 s2 : Store)
    (h : CreatedBy service crs s1 s2) (k : BucketKey) :
    s2.consumption k = s1.consumption k := by
  unfold Store.consumption
  rcases h k with h1 | ⟨h1, _, _, _, h2⟩
  · rw [h1]
  · rw [h1, h2]

theorem CreatedBy.step (service : String) (crs : List (Classify × Rule)) (s1 s2 : Store)
    (cr : Classify × Rule) (h : CreatedBy service crs s1 s2) :
    CreatedBy service (crs ++ [cr]) s1
      (createIfAbsent s2 (ruleKey service cr.1 cr.2) cr.2.ttl) := by
  intro k
  unfold createIfAbsent
  cases hs : s2 (ruleKey service cr.1 cr.2) with
  | some b =>
    rcases h k with h1 | ⟨h1, c, hc, hk, h2⟩
    · exact Or.inl h1
    · exact Or.inr ⟨h1, c, List.mem_append_left _ hc, hk, h2⟩
  | none =>
    by_cases ht : cr.2.ttl ≤ 0
    · simp only [ht, if_true]
      rcases h k with h1 | ⟨h1, c, hc, hk, h2⟩
      · exact Or.inl h1
      · exact Or.inr ⟨h1, c, List.mem_append_left _ hc, hk, h2⟩
    · simp only [ht, if_false]
      by_cases hk : k = ruleKey service cr.1 cr.2
      · subst hk
        right
        refine ⟨?_, cr, by simp, rfl, by simp [Store.put]⟩
        rcases h (ruleKey service cr.1 cr.2) with h1 | ⟨h1, _, _, _, h2⟩
        · rw [← h1, hs]
        · exact h1
      · rcases h k with h1 | ⟨h1, c, hc, hk', h2⟩
        · left
          simp [Store.put, hk, h1]
        · right
          refine ⟨h1, c, List.mem_append_left _ hc, hk', ?_⟩
          simp [Store.put, hk, h2]

theorem get_add_consumption (s : Store) (k : BucketKey) (c : Nat) :
    (match GET s k with
      | some ret => c + ret
      | none => c) = c + s.consumption k := by
  unfold GET Store.consumption
  cases s k <;> simp

theorem seg_offset (i ttl : Int) : i * ttl * 1000 / 10 = i * (ttl * 1000 / 10) := by
  have h1 : ttl * 1000 / 10 = ttl * 100 := by omega
  have h2 : i * ttl * 1000 = i * (ttl * 100) * 10 := by ring
  rw [h1, h2, Int.mul_ediv_cancel _ (by norm_num : (10 : Int) ≠ 0)]

theorem foldl_get_sum (s : Store) (f : Nat → BucketKey) (l : List Nat) (a : Nat) :
    l.foldl
      (fun consume i =>
        match GET s (f i) with
        | some ret => consume + ret
        | none => consume) a
      = a + (l.map (fun i => s.consumption (f i))).sum := by
  induction l generalizing a with
  | nil => simp
  | cons i l ih =>
    simp only [List.foldl_cons, List.map_cons, List.sum_cons]
    rw [ih, get_add_consumption]
    omega

theorem rateConsume_eq (s : Store) (service : String) (timestamp ttl : Int) :
    rateConsume s service timestamp ttl = slidingSum s service timestamp ttl := by
  unfold rateConsume slidingSum
  rw [foldl_get_sum s (rateSegKey service timestamp ttl)]
  simp only [rateSegKey, seg_offset, Nat.zero_add]

theorem slidingSum_congr (s1 s2 : Store) (service : String) (timestamp ttl : Int)
    (h : ∀ k, s2.consumption k = s1.consumption k) :
    slidingSum s2 service timestamp ttl = slidingSum s1 service timestamp ttl := by
  unfold slidingSum
  simp only [h]

theorem ruleConsumption_congr (s1 s2 : Store) (service : String) (c : Classify) (r : Rule)
    (h : ∀ k, s2.consumption k = s1.consumption k) :
    ruleConsumption s2 service c r = ruleConsumption s1 service c r := by
  cases c
  · simp only [ruleConsumption, h]
  · simp only [ruleConsumption]
    exact slidingSum_congr s1 s2 service _ _ h

/-! ## The flat loop is the rule-level loop -/

theorem loop_three (service : String) (quota_nums j : Nat) (r : Rule) (rs : List Rule)
    (st : MultiState) :
    multicounterLoop service quota_nums (3 * j + 1) (luaArgs (r :: rs)) st
      = if st.check = false ∨ st.raised = true then st
        else multicounterLoop service quota_nums (3 * (j + 1) + 1) (luaArgs rs)
          (evalRule service (if quota_nums ≤ j then Classify.rate else Classify.quota, r) st) := by
  by_cases hst : st.check = false ∨ st.raised = true
  · simp only [luaArgs, multicounterLoop, hst, if_true]
  · simp only [hst, if_false]
    have e1 : (3 * j + 1) % 3 = 1 := by omega
    have e2 : (3 * j + 1 + 1) % 3 = 2 := by omega
    have e3 : (3 * j + 1 + 1 + 1) % 3 = 0 := by omega
    have e4 : 3 * j + 1 + 1 + 1 + 1 = 3 * (j + 1) + 1 := by omega
    simp only [luaArgs, multicounterLoop, hst, if_false, multicounterBody, e1, e2, e3, e4]
    by_cases hq : quota_nums ≤ j
    · have hgt : 3 * j + 1 + 1 + 1 > quota_nums * 3 := by omega
      simp [hq, hgt, evalRule, hst]
    · have hgt : ¬ (3 * j + 1 + 1 + 1 > quota_nums * 3) := by omega
      simp [hq, hgt, evalRule, hst]

theorem loop_rates (service : String) (quota_nums : Nat) (rateRules : List Rule) (j : Nat)
    (hj : quota_nums ≤ j) (st : MultiState) :
    multicounterLoop service quota_nums (3 * j + 1) (luaArgs rateRules) st
      = evalRules service (rateRules.map (fun r => (Classify.rate, r))) st := by
  induction rateRules generalizing j st with
  | nil => simp [luaArgs, multicounterLoop, evalRules]
  | cons r rs ih =>
    rw [loop_three]
    simp only [List.map_cons, evalRules, hj, if_true]
    by_cases hst : st.check = false ∨ st.raised = true
    · simp only [hst, if_true]
    · simp only [hst, if_false]
      exact ih (j + 1) (by omega) _

theorem loop_classified (service : String) (quotaRules rateRules : List Rule) (j : Nat)
    (quota_nums : Nat) (hj : j + quotaRules.length = quota_nums) (st : MultiState) :
    multicounterLoop service quota_nums (3 * j + 1) (luaArgs (quotaRules ++ rateRules)) st
      = evalRules service (classified quotaRules rateRules) st := by
  induction quotaRules generalizing j st with
  | nil =>
    simp only [List.nil_append, classified, List.map_nil]
    exact loop_rates service quota_nums rateRules j (by simpa using hj.ge) st
  | cons r rs ih =>
    rw [List.cons_append, loop_three]
    have hq : ¬ quota_nums ≤ j := by simp at hj; omega
    simp only [classified, List.map_cons, List.cons_append, evalRules, hq, if_false]
    by_cases hst : st.check = false ∨ st.raised = true
    · simp only [hst, if_true]
    · simp only [hst, if_false]
      exact ih (j + 1) (by simp at hj; omega) _

theorem multicounter_eq (s : Store) (service : String) (quotaRules rateRules : List Rule) :
    multicounter s service quotaRules rateRules
      = (let st := evalRules service (classified quotaRules rateRules) (MultiState.init s)
         if st.raised then ⟨st.store, none⟩
         else if st.check then ⟨st.incr_keys.foldl INCR st.store, some st.success_result⟩
         else ⟨st.store, some st.result⟩) := by
  unfold multicounter multicounterScript
  have h := loop_classified service quotaRules rateRules 0 quotaRules.length (by simp)
    (MultiState.init s)
  simp only [Nat.mul_zero, Nat.zero_add] at h
  rw [h]

/-! ## One rule -/

theorem evalRule_store (service : String) (cr : Classify × Rule) (st : MultiState) :
    (evalRule service cr st).store
      = createIfAbsent st.store (ruleKey service cr.1 cr.2) cr.2.ttl := by
  obtain ⟨c, r⟩ := cr
  cases c
  · simp only [evalRule, quotaBranch, setnx_expire, ruleKey]
    split
    · rfl
    · split <;> rfl
  · simp only [evalRule, rateBranch, setnx_expire, ruleKey]
    split <;> rfl

theorem evalRule_success_ext (service : String) (cr : Classify × Rule) (st : MultiState) :
    ∃ e, (evalRule service cr st).success_result = st.success_result ++ e := by
  obtain ⟨c, r⟩ := cr
  cases c
  · simp only [evalRule, quotaBranch, setnx_expire]
    split
    · exact ⟨[], by simp⟩
    · split
      · exact ⟨_, rfl⟩
      · exact ⟨[], by simp⟩
  · simp only [evalRule, rateBranch, setnx_expire]
    split
    · exact ⟨_, rfl⟩
    · exact ⟨[], by simp⟩

theorem evalRule_success_head (service : String) (cr : Classify × Rule) (st : MultiState)
    (h : ∃ l, st.success_result = RVal.int 1 :: l) :
    ∃ l, (evalRule service cr st).success_result = RVal.int 1 :: l := by
  obtain ⟨l, hl⟩ := h
  obtain ⟨e, he⟩ := evalRule_success_ext service cr st
  exact ⟨l ++ e, by rw [he, hl, List.cons_append]⟩

/-- What one rule does to the loop state, read on the store before the call. -/
theorem evalRule_spec (s : Store) (service : String) (cr : Classify × Rule) (st : MultiState)
    (hs : ∀ k, st.store.consumption k = s.consumption k)
    (httl : cr.1 = Classify.quota → 0 < cr.2.ttl) :
    evalRule service cr st =
      if passes s service cr then
        { store := createIfAbsent st.store (ruleKey service cr.1 cr.2) cr.2.ttl
          timestamp := cr.2.timestamp
          ttl := cr.2.ttl
          incr_keys := st.incr_keys ++ [ruleKey service cr.1 cr.2]
          check := st.check
          result := st.result
          success_result := st.success_result ++ successRecord s service cr
          raised := st.raised }
      else
        { store := createIfAbsent st.store (ruleKey service cr.1 cr.2) cr.2.ttl
          timestamp := cr.2.timestamp
          ttl := cr.2.ttl
          incr_keys := st.incr_keys
          check := false
          result := st.result ++ overRecord cr
          success_result := st.success_result
          raised := st.raised } := by
  obtain ⟨c, r⟩ := cr
  cases c
  · have hpos : 0 < r.ttl := httl rfl
    have hget := createIfAbsent_get_pos st.store ⟨service, Classify.quota, r.timestamp⟩ r.ttl hpos
    simp only [evalRule, quotaBranch, setnx_expire, hget, hs, passes, ruleConsumption, ruleKey,
      successRecord, overRecord, Classify.name]
  · have hc : ∀ k, (createIfAbsent st.store ⟨service, Classify.rate, r.timestamp⟩ r.ttl).consumption k
        = s.consumption k := fun k => by rw [createIfAbsent_consumption, hs]
    simp only [evalRule, rateBranch, setnx_expire, rateConsume_eq, passes, ruleConsumption,
      ruleKey, successRecord, overRecord, Classify.name,
      slidingSum_congr s _ service r.timestamp r.ttl hc]

/-! ## The whole loop -/

theorem evalRules_stop (service : String) (crs : List (Classify × Rule)) (st : MultiState)
    (h : st.check = false ∨ st.raised = true) : evalRules service crs st = st := by
  cases crs with
  | nil => rfl
  | cons cr crs => simp only [evalRules, h, if_true]

theorem evalRules_append (service : String) (l1 l2 : List (Classify × Rule)) (st : MultiState) :
    evalRules service (l1 ++ l2) st = evalRules service l2 (evalRules service l1 st) := by
  induction l1 generalizing st with
  | nil => rfl
  | cons cr l1 ih =>
    by_cases h : st.check = false ∨ st.raised = true
    · simp only [List.cons_append, evalRules, h, if_true, evalRules_stop service l2 st h]
    · simp only [List.cons_append, evalRules, h, if_false]
      exact ih _

theorem evalRules_created (s : Store) (service : String) (crs done : List (Classify × Rule))
    (st : MultiState) (h : CreatedBy service done s st.store) :
    CreatedBy service (done ++ crs) s (evalRules service crs st).store := by
  induction crs generalizing done st with
  | nil => simpa [evalRules] using h
  | cons cr crs ih =>
    by_cases hstop : st.check = false ∨ st.raised = true
    · simp only [evalRules, hstop, if_true]
      exact CreatedBy.mono service done _ s st.store (fun x hx => List.mem_append_left _ hx) h
    · simp only [evalRules, hstop, if_false]
      have h1 := CreatedBy.step service done s st.store cr h
      rw [← evalRule_store] at h1
      have h2 := ih (done ++ [cr]) (evalRule service cr st) h1
      simpa [List.append_assoc] using h2

theorem evalRules_success_head (service : String) (crs : List (Classify × Rule))
    (st : MultiState) (h : ∃ l, st.success_result = RVal.int 1 :: l) :
    ∃ l, (evalRules service crs st).success_result = RVal.int 1 :: l := by
  induction crs generalizing st with
  | nil => exact h
  | cons cr crs ih =>
    by_cases hstop : st.check = false ∨ st.raised = true
    · simp only [evalRules, hstop, if_true]
      exact h
    · simp only [evalRules, hstop, if_false]
      exact ih _ (evalRule_success_head service cr st h)

/-- When every rule passes, the loop ends with `check` still true, one key and
one record per rule, in order. -/
theorem evalRules_pass (s : Store) (service : String) (crs : List (Classify × Rule))
    (st : MultiState)
    (hs : ∀ k, st.store.consumption k = s.consumption k)
    (hcheck : st.check = true) (hraised : st.raised = false)
    (httl : ∀ cr ∈ crs, cr.1 = Classify.quota → 0 < cr.2.ttl)
    (hpass : ∀ cr ∈ crs, passes s service cr) :
    (evalRules service crs st).check = true ∧
    (evalRules service crs st).raised = false ∧
    (evalRules service crs st).incr_keys
      = st.incr_keys ++ crs.map (fun cr => ruleKey service cr.1 cr.2) ∧
    (evalRules service crs st).success_result
      = st.success_result ++ successRecords s service crs ∧
    (evalRules service crs st).result = st.result ∧
    (∀ k, (evalRules service crs st).store.consumption k = s.consumption k) := by
  induction crs generalizing st with
  | nil => simp [evalRules, successRecords, hcheck, hraised, hs]
  | cons cr crs ih =>
    have hstop : ¬ (st.check = false ∨ st.raised = true) := by simp [hcheck, hraised]
    have hp : passes s service cr := hpass cr (List.mem_cons_self _ _)
    have hsp := evalRule_spec s service cr st hs (httl cr (List.mem_cons_self _ _))
    simp only [hp, if_true] at hsp
    simp only [evalRules, hstop, if_false]
    have ih1 := ih (evalRule service cr st)
      (by intro k; rw [hsp]; simp only [createIfAbsent_consumption, hs])
      (by rw [hsp]; exact hcheck) (by rw [hsp]; exact hraised)
      (fun x hx => httl x (List.mem_cons_of_mem _ hx))
      (fun x hx => hpass x (List.mem_cons_of_mem _ hx))
    obtain ⟨h1, h2, h3, h4, h5, h6⟩ := ih1
    refine ⟨h1, h2, ?_, ?_, ?_, h6⟩
    · rw [h3, hsp]; simp
    · rw [h4, hsp]; simp [successRecords]
    · rw [h5, hsp]

/-- When the rules before `cr` pass and `cr` does not, the loop ends with `check`
false and the over-limit record of `cr` as the result. -/
theorem evalRules_fail (s : Store) (service : String) (pre post : List (Classify × Rule))
    (cr : Classify × Rule) (st : MultiState)
    (hs : ∀ k, st.store.consumption k = s.consumption k)
    (hcheck : st.check = true) (hraised : st.raised = false)
    (httl : ∀ x ∈ pre ++ [cr], x.1 = Classify.quota → 0 < x.2.ttl)
    (hpass : ∀ x ∈ pre, passes s service x) (hfail : ¬ passes s service cr) :
    (evalRules service (pre ++ cr :: post) st).check = false ∧
    (evalRules service (pre ++ cr :: post) st).raised = false ∧
    (evalRules service (pre ++ cr :: post) st).result = st.result ++ overRecord cr := by
  obtain ⟨h1, h2, _, _, h5, h6⟩ := evalRules_pass s service pre st hs hcheck hraised
    (fun x hx => httl x (List.mem_append_left _ hx)) hpass
  rw [evalRules_append]
  generalize evalRules service pre st = st1 at h1 h2 h5 h6
  have hstop : ¬ (st1.check = false ∨ st1.raised = true) := by simp [h1, h2]
  have hsp := evalRule_spec s service cr st1 h6 (httl cr (by simp))
  simp only [hfail, if_false] at hsp
  simp only [evalRules, hstop, if_false]
  rw [evalRules_stop service post _ (by rw [hsp]; exact Or.inl rfl), hsp]
  exact ⟨rfl, h2, by rw [h5]⟩

/-! ## The commit step -/

theorem INCR_consumption (s : Store) (k k' : BucketKey) :
    (INCR s k).consumption k' = s.consumption k' + (if k' = k then 1 else 0) := by
  unfold INCR Store.consumption
  cases h : s k with
  | some b =>
    by_cases hk : k' = k
    · simp [Store.put, hk, h]
    · simp [Store.put, hk]
  | none =>
    by_cases hk : k' = k
    · simp [Store.put, hk, h]
    · simp [Store.put, hk]

theorem INCR_other (s : Store) (k k' : BucketKey) (hk : k' ≠ k) : INCR s k k' = s k' := by
  unfold INCR
  cases s k <;> simp [Store.put, hk]

theorem foldl_INCR_consumption (keys : List BucketKey) (s : Store) (k : BucketKey) :
    (keys.foldl INCR s).consumption k = s.consumption k + keys.count k := by
  induction keys generalizing s with
  | nil => simp
  | cons a keys ih =>
    rw [List.foldl_cons, ih, INCR_consumption, List.count_cons]
    by_cases h : k = a
    · subst h; simp; omega
    · have h' : ¬ a = k := fun e => h e.symm
      simp [h, h']

theorem foldl_INCR_other (keys : List BucketKey) (s : Store) (k : BucketKey)
    (hk : k ∉ keys) : keys.foldl INCR s k = s k := by
  induction keys generalizing s with
  | nil => rfl
  | cons a keys ih =>
    rw [List.foldl_cons, ih _ (fun h => hk (List.mem_cons_of_mem _ h))]
    exact INCR_other s a k (fun e => hk (e ▸ List.mem_cons_self _ _))

/-! ## Abort leaves every consumption as it was -/

/-- An over-limit reply comes from the abort path: `check` is false, no error
was raised, and the store returned is the one the loop left. -/
theorem abort_path (s : Store) (service : String) (quotaRules rateRules : List Rule)
    (rest : List RVal)
    (h : (multicounter s service quotaRules rateRules).reply = some (RVal.int 0 :: rest)) :
    (multicounter s service quotaRules rateRules).store
      = (evalRules service (classified quotaRules rateRules) (MultiState.init s)).store := by
  rw [multicounter_eq] at h ⊢
  obtain ⟨l, hl⟩ := evalRules_success_head service (classified quotaRules rateRules)
    (MultiState.init s) ⟨[], rfl⟩
  generalize evalRules service (classified quotaRules rateRules) (MultiState.init s) = st
    at h hl ⊢
  cases hr : st.raised with
  | true => simp [hr]
  | false =>
    cases hc : st.check with
    | false => simp [hr, hc]
    | true =>
      simp only [hr, hc, if_true, Bool.false_eq_true, if_false, hl] at h
      simp at h

/-- C1. Multi-counter abort atomicity: whenever the multi-counter evaluation
reports over-limit (its reply starts with 0), every bucket's consumption read
after the call, an absent key read as 0, equals its consumption before the
call, for every store, every list of quota rules and every list of rate rules. -/
theorem multicounter_abort_keeps_consumption (s : Store) (service : String)
    (quotaRules rateRules : List Rule) (rest : List RVal)
    (h : (multicounter s service quotaRules rateRules).reply = some (RVal.int 0 :: rest))
    (k : BucketKey) :
    (multicounter s service quotaRules rateRules).store.consumption k = s.consumption k := by
  rw [abort_path s service quotaRules rateRules rest h]
  have hc := evalRules_created s service (classified quotaRules rateRules) [] (MultiState.init s)
    (CreatedBy.refl service [] s)
  exact CreatedBy.consumption service _ s _ hc k

/-- Witness of C1: a quota rule at its limit 3 followed by a rate rule under its
limit; the reply is over-limit and the rate bucket still reads 0. -/
theorem multicounter_abort_keeps_consumption_witness :
    (multicounter abortStore "c1" [⟨60000, 60, 3⟩] [⟨66000, 60, 5⟩]).reply
        = some (RVal.int 0 :: [RVal.str "quota", RVal.int 60, RVal.int 3]) ∧
    (multicounter abortStore "c1" [⟨60000, 60, 3⟩] [⟨66000, 60, 5⟩]).store.consumption
        ⟨"c1", Classify.rate, 66000⟩
      = abortStore.consumption ⟨"c1", Classify.rate, 66000⟩ :=
  ⟨by decide,
   multicounter_abort_keeps_consumption abortStore "c1" [⟨60000, 60, 3⟩] [⟨66000, 60, 5⟩]
     [RVal.str "quota", RVal.int 60, RVal.int 3] (by decide) ⟨"c1", Classify.rate, 66000⟩⟩

/-! ## Commit when every rule passes -/

theorem classified_ttl (quotaRules rateRules : List Rule) (httl : ∀ r ∈ quotaRules, 0 < r.ttl) :
    ∀ cr ∈ classified quotaRules rateRules, cr.1 = Classify.quota → 0 < cr.2.ttl := by
  intro cr hcr hq
  simp only [classified, List.mem_append, List.mem_map] at hcr
  rcases hcr with ⟨r, hr, rfl⟩ | ⟨r, _, rfl⟩
  · exact httl r hr
  · cases hq

theorem classified_exact (quotaRules rateRules : List Rule)
    (hlim : ∀ r ∈ quotaRules ++ rateRules,
      -9007199254740992 ≤ r.limit ∧ r.limit ≤ 9007199254740992) :
    ∀ cr ∈ classified quotaRules rateRules, tonumber cr.2.limit = cr.2.limit := by
  intro cr hcr
  simp only [classified, List.mem_append, List.mem_map] at hcr
  rcases hcr with ⟨r, hr, rfl⟩ | ⟨r, hr, rfl⟩
  · exact tonumber_exact _ (hlim r (List.mem_append_left _ hr)).1
      (hlim r (List.mem_append_left _ hr)).2
  · exact tonumber_exact _ (hlim r (List.mem_append_right _ hr)).1
      (hlim r (List.mem_append_right _ hr)).2

theorem classified_echo (quotaRules rateRules : List Rule)
    (hlim : ∀ r ∈ quotaRules ++ rateRules,
      -9007199254740992 ≤ r.limit ∧ r.limit ≤ 9007199254740992) :
    ∀ cr ∈ classified quotaRules rateRules,
      replyInteger (tonumber cr.2.limit) = cr.2.limit := by
  intro cr hcr
  simp only [classified, List.mem_append, List.mem_map] at hcr
  rcases hcr with ⟨r, hr, rfl⟩ | ⟨r, hr, rfl⟩
  · exact echo_exact _ (hlim r (List.mem_append_left _ hr)).1
      (hlim r (List.mem_append_left _ hr)).2
  · exact echo_exact _ (hlim r (List.mem_append_right _ hr)).1
      (hlim r (List.mem_append_right _ hr)).2

theorem classified_mem (quotaRules rateRules : List Rule) :
    ∀ cr ∈ classified quotaRules rateRules, cr.2 ∈ quotaRules ++ rateRules := by
  intro cr hcr
  simp only [classified, List.mem_append, List.mem_map] at hcr
  rcases hcr with ⟨r, hr, rfl⟩ | ⟨r, hr, rfl⟩
  · exact List.mem_append_left _ hr
  · exact List.mem_append_right _ hr

/-- When every rule passes, the reply is the success list and the store is the
store left by the checks with every rule's key incremented. -/
theorem multicounter_pass (s : Store) (service : String) (quotaRules rateRules : List Rule)
    (httl : ∀ r ∈ quotaRules, 0 < r.ttl)
    (hpass : ∀ cr ∈ classified quotaRules rateRules, passes s service cr) :
    (multicounter s service quotaRules rateRules).reply
      = some (RVal.int 1 :: successRecords s service (classified quotaRules rateRules)) ∧
    ∃ s1, CreatedBy service (classified quotaRules rateRules) s s1 ∧
      (multicounter s service quotaRules rateRules).store
        = (ruleKeys service quotaRules rateRules).foldl INCR s1 := by
  have hc := evalRules_created s service (classified quotaRules rateRules) [] (MultiState.init s)
    (CreatedBy.refl service [] s)
  obtain ⟨h1, h2, h3, h4, _, _⟩ := evalRules_pass s service (classified quotaRules rateRules)
    (MultiState.init s) (fun _ => rfl) rfl rfl (classified_ttl quotaRules rateRules httl) hpass
  rw [multicounter_eq]
  generalize evalRules service (classified quotaRules rateRules) (MultiState.init s) = st
    at hc h1 h2 h3 h4
  simp only [MultiState.init, List.nil_append, List.singleton_append] at h3 h4 hc
  simp only [h1, h2, if_true, Bool.false_eq_true, if_false, h3, h4, ruleKeys]
  exact ⟨trivial, st.store, hc, rfl⟩

/-- C2, the code at the failing input: a second rule and a minute rule whose
windows start at the same instant (2024-01-01 00:01:00 UTC), as `Check` derives
them 50 ms after that instant. Both rules pass on the empty store, both address
the bucket `c1_quota_1704067260000`, the commit loop runs `INCR` on it once per
rule, and the bucket goes from 0 to 2, where one increment would give 1. -/
theorem multicounter_commit_shared_bucket :
    (∀ cr ∈ classified [⟨1704067260000, 1, 5⟩, ⟨1704067260000, 60, 5⟩] [],
        passes Store.empty "c1" cr) ∧
    (multicounter Store.empty "c1" [⟨1704067260000, 1, 5⟩, ⟨1704067260000, 60, 5⟩] []).reply
      = some [RVal.int 1, RVal.str "quota", RVal.int 1, RVal.int 5, RVal.int 1,
          RVal.str "quota", RVal.int 60, RVal.int 5, RVal.int 1] ∧
    (multicounter Store.empty "c1" [⟨1704067260000, 1, 5⟩, ⟨1704067260000, 60, 5⟩]
        []).store.consumption ⟨"c1", Classify.quota, 1704067260000⟩ = 2 ∧
    Store.empty.consumption ⟨"c1", Classify.quota, 1704067260000⟩ + 1 = 1 := by
  decide

/-- The commit loop where no bucket is shared: when every rule passes and the
bucket keys of the rules are pairwise different, each of them is incremented
once and every other key of the store is left as it was. -/
theorem commit_of_distinct_keys (s : Store) (service : String)
    (quotaRules rateRules : List Rule)
    (httl : ∀ r ∈ quotaRules, 0 < r.ttl)
    (hpass : ∀ cr ∈ classified quotaRules rateRules, passes s service cr)
    (hnodup : (ruleKeys service quotaRules rateRules).Nodup) (k : BucketKey) :
    (k ∈ ruleKeys service quotaRules rateRules →
      (multicounter s service quotaRules rateRules).store.consumption k
        = s.consumption k + 1) ∧
    (k ∉ ruleKeys service quotaRules rateRules →
      (multicounter s service quotaRules rateRules).store k = s k) := by
  obtain ⟨_, s1, hc, hstore⟩ := multicounter_pass s service quotaRules rateRules httl hpass
  rw [hstore]
  constructor
  · intro hk
    rw [foldl_INCR_consumption, CreatedBy.consumption service _ s s1 hc k,
      List.count_eq_one_of_mem hnodup hk]
  · intro hk
    rw [foldl_INCR_other _ _ _ hk]
    rcases hc k with h1 | ⟨_, cr, hcr, hkey, _⟩
    · exact h1
    · exact absurd (hkey ▸ List.mem_map_of_mem _ hcr) hk

/-! ## Over-limit attribution -/

theorem first_failing {α : Type} (p : α → Prop) [DecidablePred p] (l : List α)
    (h : ∃ x ∈ l, ¬ p x) :
    ∃ pre x post, l = pre ++ x :: post ∧ (∀ y ∈ pre, p y) ∧ ¬ p x := by
  induction l with
  | nil => simp at h
  | cons a l ih =>
    by_cases ha : p a
    · obtain ⟨x, hx, hpx⟩ := h
      have hx' : x ∈ l := by
        rcases List.mem_cons.mp hx with rfl | hx'
        · exact absurd ha hpx
        · exact hx'
      obtain ⟨pre, y, post, hl, hpre, hy⟩ := ih ⟨x, hx', hpx⟩
      refine ⟨a :: pre, y, post, by rw [hl, List.cons_append], ?_, hy⟩
      intro z hz
      rcases List.mem_cons.mp hz with rfl | hz'
      · exact ha
      · exact hpre z hz'
    · exact ⟨[], a, l, rfl, by simp, ha⟩

/-- When the rules before `cr` pass and `cr` does not, the reply is the single
over-limit record of `cr` and nothing is committed. -/
theorem multicounter_fail (s : Store) (service : String) (quotaRules rateRules : List Rule)
    (pre post : List (Classify × Rule)) (cr : Classify × Rule)
    (hsplit : classified quotaRules rateRules = pre ++ cr :: post)
    (httl : ∀ r ∈ quotaRules, 0 < r.ttl)
    (hpass : ∀ x ∈ pre, passes s service x) (hfail : ¬ passes s service cr) :
    (multicounter s service quotaRules rateRules).reply = some (overRecord cr) ∧
    (multicounter s service quotaRules rateRules).store
      = (evalRules service (classified quotaRules rateRules) (MultiState.init s)).store := by
  have httl' : ∀ x ∈ pre ++ [cr], x.1 = Classify.quota → 0 < x.2.ttl := by
    intro x hx
    apply classified_ttl quotaRules rateRules httl x
    rw [hsplit]
    simp only [List.mem_append, List.mem_singleton, List.mem_cons] at hx ⊢
    tauto
  obtain ⟨h1, h2, h3⟩ := evalRules_fail s service pre post cr (MultiState.init s)
    (fun _ => rfl) rfl rfl httl' hpass hfail
  rw [multicounter_eq, hsplit]
  generalize evalRules service (pre ++ cr :: post) (MultiState.init s) = st at h1 h2 h3
  simp only [MultiState.init, List.nil_append] at h3
  simp only [h1, h2, Bool.false_eq_true, if_false, h3]
  exact ⟨trivial, trivial⟩

theorem checkResults_over (cr : Classify × Rule) :
    checkResults (overRecord cr)
      = some [⟨true, cr.1.name, 0, cr.2.ttl, replyInteger (tonumber cr.2.limit)⟩] := by
  simp [checkResults, overRecord, asInt64, asString]

/-- C5 as stated fails: a quota rule with the limit −9007199254740993 on an empty
store is at its limit (consumption 0 is not below it), and the over-limit
record, also as `Check` decodes it, carries the limit −9007199254740992: the
script echoes the Lua number `tonumber` made of the limit, which is a double. -/
theorem over_limit_record_rounds_limit :
    ¬ ((Store.empty.consumption ⟨"c1", Classify.quota, 1704067260000⟩ : Int)
        < -9007199254740993) ∧
    (multicounter Store.empty "c1" [⟨1704067260000, 60, -9007199254740993⟩] []).reply
      = some [RVal.int 0, RVal.str "quota", RVal.int 60, RVal.int (-9007199254740992)] ∧
    (Check 1704067260050 Store.empty "c1" [("minute", -9007199254740993)] []).2
      = CheckOutcome.results [⟨true, "quota", 0, 60, -9007199254740992⟩] := by
  decide

/-- C5, amended. Over-limit attribution: for every store and every rule list
whose limits have magnitude at most 2^53, the range in which a Lua number
holds every integer exactly (positive quota window lengths), in which at least
one rule's consumption before the call is at or over its limit, the reply is
exactly one record `[0, classify, ttl, limit]` whose classify, window length
and limit are those of the first such rule in evaluation order (quota rules in
input order, then rate rules in input order), and `Check` maps it to exactly
one result with `Over = true`, `Rest = 0` and that rule's `Classify`,
`Interval` and `Limit`. -/
theorem multicounter_over_limit_first (s : Store) (service : String)
    (quotaRules rateRules : List Rule)
    (httl : ∀ r ∈ quotaRules, 0 < r.ttl)
    (hlim : ∀ r ∈ quotaRules ++ rateRules,
      -9007199254740992 ≤ r.limit ∧ r.limit ≤ 9007199254740992)
    (hover : ∃ cr ∈ classified quotaRules rateRules,
      ¬ ((ruleConsumption s service cr.1 cr.2 : Int) < cr.2.limit)) :
    ∃ pre cr post,
      classified quotaRules rateRules = pre ++ cr :: post ∧
      (∀ x ∈ pre, (ruleConsumption s service x.1 x.2 : Int) < x.2.limit) ∧
      ¬ ((ruleConsumption s service cr.1 cr.2 : Int) < cr.2.limit) ∧
      (multicounter s service quotaRules rateRules).reply
        = some [RVal.int 0, RVal.str cr.1.name, RVal.int cr.2.ttl, RVal.int cr.2.limit] ∧
      (multicounter s service quotaRules rateRules).reply.bind checkResults
        = some [⟨true, cr.1.name, 0, cr.2.ttl, cr.2.limit⟩] := by
  have hex := classified_exact quotaRules rateRules hlim
  have hover' : ∃ cr ∈ classified quotaRules rateRules, ¬ passes s service cr := by
    obtain ⟨cr, hcr, hn⟩ := hover
    exact ⟨cr, hcr, by unfold passes; rw [hex cr hcr]; exact hn⟩
  obtain ⟨pre, cr, post, hsplit, hpre, hcr⟩ :=
    first_failing (passes s service) (classified quotaRules rateRules) hover'
  obtain ⟨hreply, _⟩ := multicounter_fail s service quotaRules rateRules pre post cr hsplit
    httl hpre hcr
  have hmem : cr ∈ classified quotaRules rateRules := by rw [hsplit]; simp
  have hprem : ∀ x ∈ pre, x ∈ classified quotaRules rateRules := by
    intro x hx; rw [hsplit]; exact List.mem_append_left _ hx
  refine ⟨pre, cr, post, hsplit, ?_, ?_, ?_, ?_⟩
  · intro x hx
    have := hpre x hx
    unfold passes at this
    rwa [hex x (hprem x hx)] at this
  · unfold passes at hcr
    rwa [hex cr hmem] at hcr
  · rw [hreply, overRecord, classified_echo quotaRules rateRules hlim cr hmem]
  · rw [hreply, Option.some_bind, checkResults_over,
      classified_echo quotaRules rateRules hlim cr hmem]

/-- Witness of the amended C5: an hour quota rule under its limit, a minute
quota rule at its limit and a rate rule with limit 0; the record names the
minute quota rule. -/
theorem multicounter_over_limit_first_witness :
    ((∀ r ∈ [(⟨1704067200000, 3600, 10⟩ : Rule), ⟨1704067260000, 60, 3⟩], 0 < r.ttl) ∧
      (∀ r ∈ [(⟨1704067200000, 3600, 10⟩ : Rule), ⟨1704067260000, 60, 3⟩]
          ++ [⟨1704067266000, 60, 0⟩],
        -9007199254740992 ≤ r.limit ∧ r.limit ≤ 9007199254740992) ∧
      (∃ cr ∈ classified [⟨1704067200000, 3600, 10⟩, ⟨1704067260000, 60, 3⟩]
          [⟨1704067266000, 60, 0⟩],
        ¬ ((ruleConsumption overStore "c1" cr.1 cr.2 : Int) < cr.2.limit))) ∧
    (∃ pre cr post,
      classified [⟨1704067200000, 3600, 10⟩, ⟨1704067260000, 60, 3⟩] [⟨1704067266000, 60, 0⟩]
        = pre ++ cr :: post ∧
      (∀ x ∈ pre, (ruleConsumption overStore "c1" x.1 x.2 : Int) < x.2.limit) ∧
      ¬ ((ruleConsumption overStore "c1" cr.1 cr.2 : Int) < cr.2.limit) ∧
      (multicounter overStore "c1" [⟨1704067200000, 3600, 10⟩, ⟨1704067260000, 60, 3⟩]
          [⟨1704067266000, 60, 0⟩]).reply
        = some [RVal.int 0, RVal.str cr.1.name, RVal.int cr.2.ttl, RVal.int cr.2.limit] ∧
      (multicounter overStore "c1" [⟨1704067200000, 3600, 10⟩, ⟨1704067260000, 60, 3⟩]
          [⟨1704067266000, 60, 0⟩]).reply.bind checkResults
        = some [⟨true, cr.1.name, 0, cr.2.ttl, cr.2.limit⟩]) :=
  ⟨⟨by decide, by decide, by decide⟩,
   multicounter_over_limit_first overStore "c1"
     [⟨1704067200000, 3600, 10⟩, ⟨1704067260000, 60, 3⟩] [⟨1704067266000, 60, 0⟩]
     (by decide) (by decide) (by decide)⟩

/-! ## Serial evaluations of one quota rule -/

theorem multicounter_fail_consumption (s : Store) (service : String)
    (quotaRules rateRules : List Rule) (pre post : List (Classify × Rule))
    (cr : Classify × Rule)
    (hsplit : classified quotaRules rateRules = pre ++ cr :: post)
    (httl : ∀ r ∈ quotaRules, 0 < r.ttl)
    (hpass : ∀ x ∈ pre, passes s service x) (hfail : ¬ passes s service cr) (k : BucketKey) :
    (multicounter s service quotaRules rateRules).store.consumption k = s.consumption k := by
  obtain ⟨_, hstore⟩ := multicounter_fail s service quotaRules rateRules pre post cr hsplit
    httl hpass hfail
  rw [hstore]
  exact CreatedBy.consumption service _ s _
    (evalRules_created s service (classified quotaRules rateRules) [] (MultiState.init s)
      (CreatedBy.refl service [] s)) k

/-- One evaluation of a single quota rule. -/
theorem quota_single (s : Store) (service : String) (r : Rule) (httl : 0 < r.ttl) :
    (multicounter s service [r] []).reply
      = (if (s.consumption (ruleKey service Classify.quota r) : Int) < (tonumber r.limit) then
          some [RVal.int 1, RVal.str "quota", RVal.int r.ttl,
            RVal.int (replyInteger (tonumber r.limit)),
            RVal.int ((s.consumption (ruleKey service Classify.quota r) : Int) + 1)]
        else some [RVal.int 0, RVal.str "quota", RVal.int r.ttl,
          RVal.int (replyInteger (tonumber r.limit))]) ∧
    (multicounter s service [r] []).store.consumption (ruleKey service Classify.quota r)
      = (if (s.consumption (ruleKey service Classify.quota r) : Int) < (tonumber r.limit) then
          s.consumption (ruleKey service Classify.quota r) + 1
        else s.consumption (ruleKey service Classify.quota r)) := by
  have httl' : ∀ x ∈ [r], 0 < x.ttl := by simpa using httl
  have hcl : classified [r] [] = [(Classify.quota, r)] := rfl
  by_cases hlt : (s.consumption (ruleKey service Classify.quota r) : Int) < (tonumber r.limit)
  · have hpass : ∀ cr ∈ classified [r] [], passes s service cr := by
      intro cr hcr
      rw [hcl, List.mem_singleton] at hcr
      subst hcr
      exact hlt
    obtain ⟨hreply, s1, hc, hstore⟩ := multicounter_pass s service [r] [] httl' hpass
    simp only [hlt, if_true]
    constructor
    · rw [hreply]; rfl
    · rw [hstore, foldl_INCR_consumption, CreatedBy.consumption service _ s s1 hc]
      simp [ruleKeys, hcl]
  · have hfail : ¬ passes s service (Classify.quota, r) := hlt
    obtain ⟨hreply, _⟩ := multicounter_fail s service [r] [] [] [] (Classify.quota, r) hcl
      httl' (by simp) hfail
    simp only [hlt, if_false]
    constructor
    · rw [hreply]; rfl
    · exact multicounter_fail_consumption s service [r] [] [] [] (Classify.quota, r) hcl
        httl' (by simp) hfail _

theorem serial_quota_consumption (s : Store) (service : String) (r : Rule) (httl : 0 < r.ttl)
    (hc : (s.consumption (ruleKey service Classify.quota r) : Int) ≤ tonumber r.limit)
    (n : Nat) :
    ((serial service [r] [] s n).consumption (ruleKey service Classify.quota r) : Int)
      = min ((s.consumption (ruleKey service Classify.quota r) : Int) + n) (tonumber r.limit) := by
  induction n with
  | zero =>
    simp only [serial, Nat.cast_zero, add_zero]
    omega
  | succ n ih =>
    have h := (quota_single (serial service [r] [] s n) service r httl).2
    simp only [serial]
    rw [h]
    split
    · push_cast
      omega
    · push_cast
      omega

/-- C3 as stated fails: a quota rule with limit L = 9007199254740993 whose
bucket holds c = 9007199254740992 ≤ L. The claim admits the next evaluation
(c < L) with consumption-after L; the script compares with the Lua number of
the limit, 9007199254740992, refuses the call and reports it over-limit
against 9007199254740992, the bucket staying at c. -/
theorem quota_limit_beyond_double :
    ((Store.empty.put ⟨"c1", Classify.quota, 1704067260000⟩
        (some ⟨9007199254740992, some 60⟩)).consumption
        ⟨"c1", Classify.quota, 1704067260000⟩ : Int) < 9007199254740993 ∧
    (multicounter (Store.empty.put ⟨"c1", Classify.quota, 1704067260000⟩
        (some ⟨9007199254740992, some 60⟩)) "c1"
        [⟨1704067260000, 60, 9007199254740993⟩] []).reply
      = some [RVal.int 0, RVal.str "quota", RVal.int 60, RVal.int 9007199254740992] ∧
    (multicounter (Store.empty.put ⟨"c1", Classify.quota, 1704067260000⟩
        (some ⟨9007199254740992, some 60⟩)) "c1"
        [⟨1704067260000, 60, 9007199254740993⟩] []).store.consumption
        ⟨"c1", Classify.quota, 1704067260000⟩ = 9007199254740992 := by
  decide

/-- C3, amended. Quota at-most-N through the multi-counter: for a single quota
rule with limit L of at most 2^53, the range in which a Lua number holds every
integer exactly (positive window length), whose bucket holds consumption
c ≤ L, in a serial sequence of evaluations at the same timestamp the bucket
holds min (c + n) L after n evaluations, evaluation number n + 1 is admitted
with consumption-after c + n + 1 exactly when c + n < L (so exactly the first
L − c evaluations are admitted, returning c+1, …, L) and is otherwise reported
over-limit against limit L, the bucket staying at L. -/
theorem quota_at_most_limit (s : Store) (service : String) (r : Rule) (httl : 0 < r.ttl)
    (hlim : r.limit ≤ 9007199254740992)
    (hc : (s.consumption (ruleKey service Classify.quota r) : Int) ≤ r.limit) (n : Nat) :
    ((serial service [r] [] s n).consumption (ruleKey service Classify.quota r) : Int)
      = min ((s.consumption (ruleKey service Classify.quota r) : Int) + n) r.limit ∧
    (multicounter (serial service [r] [] s n) service [r] []).reply
      = (if (s.consumption (ruleKey service Classify.quota r) : Int) + n < r.limit then
          some [RVal.int 1, RVal.str "quota", RVal.int r.ttl, RVal.int r.limit,
            RVal.int ((s.consumption (ruleKey service Classify.quota r) : Int) + n + 1)]
        else some [RVal.int 0, RVal.str "quota", RVal.int r.ttl, RVal.int r.limit]) := by
  have hex : tonumber r.limit = r.limit := tonumber_exact _ (by omega) hlim
  have hecho : replyInteger (tonumber r.limit) = r.limit := echo_exact _ (by omega) hlim
  have hcons := serial_quota_consumption s service r httl (by rw [hex]; exact hc) n
  rw [hex] at hcons
  refine ⟨hcons, ?_⟩
  rw [(quota_single (serial service [r] [] s n) service r httl).1, hecho, hex, hcons]
  by_cases hlt : (s.consumption (ruleKey service Classify.quota r) : Int) + n < r.limit
  · have hmin : min ((s.consumption (ruleKey service Classify.quota r) : Int) + n) r.limit
        = (s.consumption (ruleKey service Classify.quota r) : Int) + n := by omega
    simp only [hmin, hlt, if_true]
  · have hmin : min ((s.consumption (ruleKey service Classify.quota r) : Int) + n) r.limit
        = r.limit := by omega
    simp only [hmin, hlt, if_false, lt_irrefl]

/-- Witness of the amended C3: limit 3 and a fresh bucket; the fourth evaluation
(after three admitted ones) finds the bucket at 3 and is reported over-limit. -/
theorem quota_at_most_limit_witness :
    ((0 : Int) < (⟨1704067260000, 60, 3⟩ : Rule).ttl ∧
      (⟨1704067260000, 60, 3⟩ : Rule).limit ≤ 9007199254740992 ∧
      (Store.empty.consumption (ruleKey "c1" Classify.quota ⟨1704067260000, 60, 3⟩) : Int)
        ≤ (⟨1704067260000, 60, 3⟩ : Rule).limit) ∧
    (((serial "c1" [⟨1704067260000, 60, 3⟩] [] Store.empty 3).consumption
        (ruleKey "c1" Classify.quota ⟨1704067260000, 60, 3⟩) : Int)
      = min ((Store.empty.consumption
          (ruleKey "c1" Classify.quota ⟨1704067260000, 60, 3⟩) : Int) + (3 : Nat))
          (⟨1704067260000, 60, 3⟩ : Rule).limit ∧
    (multicounter (serial "c1" [⟨1704067260000, 60, 3⟩] [] Store.empty 3) "c1"
        [⟨1704067260000, 60, 3⟩] []).reply
      = (if (Store.empty.consumption
            (ruleKey "c1" Classify.quota ⟨1704067260000, 60, 3⟩) : Int) + (3 : Nat)
            < (⟨1704067260000, 60, 3⟩ : Rule).limit then
          some [RVal.int 1, RVal.str "quota", RVal.int (⟨1704067260000, 60, 3⟩ : Rule).ttl,
            RVal.int (⟨1704067260000, 60, 3⟩ : Rule).limit,
            RVal.int ((Store.empty.consumption
              (ruleKey "c1" Classify.quota ⟨1704067260000, 60, 3⟩) : Int) + (3 : Nat) + 1)]
        else some [RVal.int 0, RVal.str "quota",
          RVal.int (⟨1704067260000, 60, 3⟩ : Rule).ttl,
          RVal.int (⟨1704067260000, 60, 3⟩ : Rule).limit])) :=
  ⟨⟨by decide, by decide, by decide⟩,
   quota_at_most_limit Store.empty "c1" ⟨1704067260000, 60, 3⟩ (by decide) (by decide)
     (by decide) 3⟩

/-! ## Abort: what the store may still show -/

/-- C4 as stated fails: a quota rule under its limit whose bucket is absent,
followed by a rate rule at its limit 2. The evaluation aborts as over-limit on
the rate rule, and the quota bucket, absent before the call, exists after it
with value 0 and a time to live of 60 seconds. -/
theorem multicounter_abort_creates_bucket :
    (multicounter createStore "c1" [⟨1704067260000, 60, 3⟩] [⟨1704067266000, 60, 2⟩]).reply
      = some [RVal.int 0, RVal.str "rate", RVal.int 60, RVal.int 2] ∧
    createStore ⟨"c1", Classify.quota, 1704067260000⟩ = none ∧
    (multicounter createStore "c1" [⟨1704067260000, 60, 3⟩] [⟨1704067266000, 60, 2⟩]).store
        ⟨"c1", Classify.quota, 1704067260000⟩ = some ⟨0, some 60⟩ := by
  decide

/-- C4, amended. On abort no bucket value changes and no existing key is
touched: for every store and rule list, when the multi-counter evaluation
aborts as over-limit, every key of the store is exactly as before the call
(value and time to live), except that a key that was absent and is the bucket
of a rule of the input may have been created with value 0 and that rule's
window length as its time to live. -/
theorem multicounter_abort_store (s : Store) (service : String)
    (quotaRules rateRules : List Rule) (rest : List RVal)
    (h : (multicounter s service quotaRules rateRules).reply = some (RVal.int 0 :: rest))
    (k : BucketKey) :
    (multicounter s service quotaRules rateRules).store k = s k ∨
    (s k = none ∧ ∃ cr ∈ classified quotaRules rateRules,
      ruleKey service cr.1 cr.2 = k ∧
      (multicounter s service quotaRules rateRules).store k = some ⟨0, some cr.2.ttl⟩) := by
  rw [abort_path s service quotaRules rateRules rest h]
  have hc := evalRules_created s service (classified quotaRules rateRules) [] (MultiState.init s)
    (CreatedBy.refl service [] s)
  simpa using hc k

/-- Witness of the amended C4 on the creation example, at the quota bucket. -/
theorem multicounter_abort_store_witness :
    (multicounter createStore "c1" [⟨1704067260000, 60, 3⟩] [⟨1704067266000, 60, 2⟩]).reply
      = some (RVal.int 0 :: [RVal.str "rate", RVal.int 60, RVal.int 2]) ∧
    ((multicounter createStore "c1" [⟨1704067260000, 60, 3⟩] [⟨1704067266000, 60, 2⟩]).store
        ⟨"c1", Classify.quota, 1704067260000⟩
        = createStore ⟨"c1", Classify.quota, 1704067260000⟩ ∨
     (createStore ⟨"c1", Classify.quota, 1704067260000⟩ = none ∧
      ∃ cr ∈ classified [⟨1704067260000, 60, 3⟩] [⟨1704067266000, 60, 2⟩],
        ruleKey "c1" cr.1 cr.2 = ⟨"c1", Classify.quota, 1704067260000⟩ ∧
        (multicounter createStore "c1" [⟨1704067260000, 60, 3⟩]
            [⟨1704067266000, 60, 2⟩]).store ⟨"c1", Classify.quota, 1704067260000⟩
          = some ⟨0, some cr.2.ttl⟩)) :=
  ⟨by decide,
   multicounter_abort_store createStore "c1" [⟨1704067260000, 60, 3⟩] [⟨1704067266000, 60, 2⟩]
     [RVal.str "rate", RVal.int 60, RVal.int 2] (by decide)
     ⟨"c1", Classify.quota, 1704067260000⟩⟩

/-! ## Decoding the success reply -/

theorem successRecords_length (s : Store) (service : String) (crs : List (Classify × Rule)) :
    (successRecords s service crs).length = 4 * crs.length := by
  induction crs with
  | nil => rfl
  | cons cr crs ih =>
    simp only [successRecords, successRecord, List.length_append, List.length_cons,
      List.length_nil, ih]
    omega

theorem decodeRecord_shift (x a b c d : RVal) (rest : List RVal) (i : Nat) :
    decodeRecord (x :: a :: b :: c :: d :: rest) (i + 1) = decodeRecord (x :: rest) i := by
  have e1 : (i + 1) * 4 + 1 = i * 4 + 1 + 1 + 1 + 1 + 1 := by omega
  have e2 : (i + 1) * 4 + 2 = i * 4 + 1 + 1 + 1 + 1 + 1 + 1 := by omega
  have e3 : (i + 1) * 4 + 3 = i * 4 + 2 + 1 + 1 + 1 + 1 + 1 := by omega
  have e4 : (i + 1) * 4 + 4 = i * 4 + 3 + 1 + 1 + 1 + 1 + 1 := by omega
  have f2 : i * 4 + 2 = i * 4 + 1 + 1 := by omega
  have f3 : i * 4 + 3 = i * 4 + 2 + 1 := by omega
  have f4 : i * 4 + 4 = i * 4 + 3 + 1 := by omega
  simp only [decodeRecord, asString, asInt64, e1, e2, e3, e4, f2, f3, f4,
    List.getElem?_cons_succ]

theorem checkLoop_shift (x a b c d : RVal) (rest : List RVal) (i count : Nat) :
    checkLoop (x :: a :: b :: c :: d :: rest) (i + 1) count = checkLoop (x :: rest) i count := by
  induction count generalizing i with
  | zero => rfl
  | succ count ih => simp only [checkLoop, decodeRecord_shift, ih]

theorem checkLoop_success (s : Store) (service : String) (x : RVal)
    (crs : List (Classify × Rule)) :
    checkLoop (x :: successRecords s service crs) 0 crs.length
      = some (crs.map (passResult s service)) := by
  induction crs with
  | nil => rfl
  | cons cr crs ih =>
    have hrec : x :: successRecords s service (cr :: crs)
        = x :: RVal.str cr.1.name :: RVal.int cr.2.ttl
          :: RVal.int (replyInteger (tonumber cr.2.limit))
          :: RVal.int ((ruleConsumption s service cr.1 cr.2 : Int) + 1)
          :: successRecords s service crs := rfl
    rw [hrec, List.length_cons, checkLoop, checkLoop_shift, ih]
    simp [decodeRecord, asString, asInt64, passResult]

theorem checkResults_success (s : Store) (service : String) (crs : List (Classify × Rule)) :
    checkResults (RVal.int 1 :: successRecords s service crs)
      = some (crs.map (passResult s service)) := by
  have hlen : (RVal.int 1 :: successRecords s service crs).length / 4 = crs.length := by
    rw [List.length_cons, successRecords_length]
    omega
  have hhead : asInt64 (RVal.int 1 :: successRecords s service crs) 0 = some 1 := by
    simp [asInt64]
  unfold checkResults
  rw [hhead, hlen]
  simp only [Option.bind_eq_bind, Option.some_bind, one_ne_zero, if_false]
  exact checkLoop_success s service (RVal.int 1) crs

/-- C6 as stated fails: on the empty store the single quota rule "minute" with
limit 9007199254740993 passes (consumption 0), yet the script echoes the Lua
number of the limit and `Check` decodes `Limit` 9007199254740992 and `Rest`
9007199254740991, not the rule's limit 9007199254740993 and limit − 1. -/
theorem success_result_rounds_limit :
    ((ruleConsumption Store.empty "c1" Classify.quota
        ⟨1704067260000, 60, 9007199254740993⟩ : Int) < 9007199254740993) ∧
    (multicounter Store.empty "c1" [⟨1704067260000, 60, 9007199254740993⟩] []).reply
      = some [RVal.int 1, RVal.str "quota", RVal.int 60, RVal.int 9007199254740992,
          RVal.int 1] ∧
    (Check 1704067260050 Store.empty "c1" [("minute", 9007199254740993)] []).2
      = CheckOutcome.results [⟨false, "quota", 9007199254740991, 60, 9007199254740992⟩] := by
  decide

/-- C6, amended. Success result of `Check`: for every store and every list of n
rules (positive quota window lengths, limits of at most 2^53, the range in which
a Lua number holds every integer exactly) that all pass, the reply is a flat
list of length 1 + 4n starting with 1, and `Check` decodes it into exactly n
results, one per rule in evaluation order (quota rules, then rate rules), each
with `Over = false`, the rule's `Classify`, `Interval` equal to the rule's
TTL, `Limit` equal to the rule's limit and `Rest` = limit − (consumption
before the call + 1), which satisfies 0 ≤ `Rest` < limit. -/
theorem check_success_results (s : Store) (service : String)
    (quotaRules rateRules : List Rule)
    (httl : ∀ r ∈ quotaRules, 0 < r.ttl)
    (hlim : ∀ r ∈ quotaRules ++ rateRules, r.limit ≤ 9007199254740992)
    (hpass : ∀ cr ∈ classified quotaRules rateRules,
      (ruleConsumption s service cr.1 cr.2 : Int) < cr.2.limit) :
    (∃ body, (multicounter s service quotaRules rateRules).reply = some (RVal.int 1 :: body) ∧
      (RVal.int 1 :: body).length = 1 + 4 * (quotaRules.length + rateRules.length)) ∧
    (multicounter s service quotaRules rateRules).reply.bind checkResults
      = some ((classified quotaRules rateRules).map
          (fun cr => ⟨false, cr.1.name,
            cr.2.limit - ((ruleConsumption s service cr.1 cr.2 : Int) + 1),
            cr.2.ttl, cr.2.limit⟩)) ∧
    (∀ cr ∈ classified quotaRules rateRules,
      0 ≤ cr.2.limit - ((ruleConsumption s service cr.1 cr.2 : Int) + 1) ∧
      cr.2.limit - ((ruleConsumption s service cr.1 cr.2 : Int) + 1) < cr.2.limit) := by
  have hup : ∀ cr ∈ classified quotaRules rateRules, cr.2.limit ≤ 9007199254740992 :=
    fun cr hcr => hlim cr.2 (classified_mem quotaRules rateRules cr hcr)
  have hpass2 : ∀ cr ∈ classified quotaRules rateRules, passes s service cr := by
    intro cr hcr
    have hp := hpass cr hcr
    unfold passes
    rw [tonumber_exact _ (by omega) (hup cr hcr)]
    exact hp
  obtain ⟨hreply, _⟩ := multicounter_pass s service quotaRules rateRules httl hpass2
  refine ⟨⟨_, hreply, ?_⟩, ?_, ?_⟩
  · rw [List.length_cons, successRecords_length]
    simp only [classified, List.length_append, List.length_map]
    omega
  · rw [hreply, Option.some_bind, checkResults_success]
    congr 1
    apply List.map_congr_left
    intro cr hcr
    have hp := hpass cr hcr
    have hl := hup cr hcr
    unfold passResult
    rw [echo_exact _ (by omega) hl, wrapInt64_exact _ (by omega) (by omega)]
  · intro cr hcr
    have hp := hpass cr hcr
    omega

/-- Witness of the amended C6 on the commit example: one quota rule (consumption
2 of 3) and one rate rule (consumption 3 of 5) decode into two results with
`Rest` 0 and 1. -/
theorem check_success_results_witness :
    ((∀ r ∈ [(⟨1704067260000, 60, 3⟩ : Rule)], 0 < r.ttl) ∧
      (∀ r ∈ [(⟨1704067260000, 60, 3⟩ : Rule)] ++ [⟨1704067266000, 60, 5⟩],
        r.limit ≤ 9007199254740992) ∧
      (∀ cr ∈ classified [⟨1704067260000, 60, 3⟩] [⟨1704067266000, 60, 5⟩],
        (ruleConsumption commitStore "c1" cr.1 cr.2 : Int) < cr.2.limit)) ∧
    (multicounter commitStore "c1" [⟨1704067260000, 60, 3⟩]
        [⟨1704067266000, 60, 5⟩]).reply.bind checkResults
      = some [⟨false, "quota", 0, 60, 3⟩, ⟨false, "rate", 1, 60, 5⟩] :=
  ⟨⟨by decide, by decide, by decide⟩,
   (check_success_results commitStore "c1" [⟨1704067260000, 60, 3⟩] [⟨1704067266000, 60, 5⟩]
     (by decide) (by decide) (by decide)).2.1.trans (by decide)⟩

/-! ## The sliding sum of a rate rule -/

theorem slidingSum_agree (s1 s2 : Store) (service : String) (timestamp ttl : Int)
    (h : ∀ i : Nat, i < 10 →
      s2 ⟨service, Classify.rate, timestamp - (i : Int) * (ttl * 1000 / 10)⟩
        = s1 ⟨service, Classify.rate, timestamp - (i : Int) * (ttl * 1000 / 10)⟩) :
    slidingSum s2 service timestamp ttl = slidingSum s1 service timestamp ttl := by
  unfold slidingSum
  congr 1
  apply List.map_congr_left
  intro i hi
  unfold Store.consumption
  rw [h i (List.mem_range.mp hi)]

/-- One evaluation of a single rate rule. -/
theorem rate_single (s : Store) (service : String) (r : Rule) :
    (multicounter s service [] [r]).reply
      = (if (slidingSum s service r.timestamp r.ttl : Int) < (tonumber r.limit) then
          some [RVal.int 1, RVal.str "rate", RVal.int r.ttl,
            RVal.int (replyInteger (tonumber r.limit)),
            RVal.int ((slidingSum s service r.timestamp r.ttl : Int) + 1)]
        else some [RVal.int 0, RVal.str "rate", RVal.int r.ttl,
          RVal.int (replyInteger (tonumber r.limit))]) := by
  have httl : ∀ x ∈ ([] : List Rule), 0 < x.ttl := by simp
  have hcl : classified [] [r] = [(Classify.rate, r)] := rfl
  by_cases hlt : (slidingSum s service r.timestamp r.ttl : Int) < (tonumber r.limit)
  · have hpass : ∀ cr ∈ classified [] [r], passes s service cr := by
      intro cr hcr
      rw [hcl, List.mem_singleton] at hcr
      subst hcr
      exact hlt
    obtain ⟨hreply, _⟩ := multicounter_pass s service [] [r] httl hpass
    simp only [hlt, if_true]
    rw [hreply]; rfl
  · have hfail : ¬ passes s service (Classify.rate, r) := hlt
    obtain ⟨hreply, _⟩ := multicounter_fail s service [] [r] [] [] (Classify.rate, r) hcl
      httl (by simp) hfail
    simp only [hlt, if_false]
    rw [hreply]; rfl

/-- C7. Sliding sum over exactly the 10 most recent segments: for every store
and every rate rule at segment timestamp ts with window ttl, the consumption
that the multi-counter compares with the limit (as the Lua number that line
130 makes of it) and returns plus one when it admits is the sum of the buckets
at ts − i·(ttl·1000/10), i = 0..9, an absent bucket counted as 0; two stores
that agree on those 10 buckets give the same reply, hence the same admission
decision and the same returned consumption, whatever any other key holds; and
for a limit of magnitude at most 2^53 the number compared and echoed is the
limit itself. -/
theorem rate_sums_ten_segments (s : Store) (service : String) (r : Rule) :
    (multicounter s service [] [r]).reply
      = (if (slidingSum s service r.timestamp r.ttl : Int) < tonumber r.limit then
          some [RVal.int 1, RVal.str "rate", RVal.int r.ttl,
            RVal.int (replyInteger (tonumber r.limit)),
            RVal.int ((slidingSum s service r.timestamp r.ttl : Int) + 1)]
        else some [RVal.int 0, RVal.str "rate", RVal.int r.ttl,
          RVal.int (replyInteger (tonumber r.limit))]) ∧
    (∀ s2 : Store,
      (∀ i : Nat, i < 10 →
        s2 ⟨service, Classify.rate, r.timestamp - (i : Int) * (r.ttl * 1000 / 10)⟩
          = s ⟨service, Classify.rate, r.timestamp - (i : Int) * (r.ttl * 1000 / 10)⟩) →
      (multicounter s2 service [] [r]).reply = (multicounter s service [] [r]).reply) ∧
    (-9007199254740992 ≤ r.limit ∧ r.limit ≤ 9007199254740992 →
      (multicounter s service [] [r]).reply
        = (if (slidingSum s service r.timestamp r.ttl : Int) < r.limit then
            some [RVal.int 1, RVal.str "rate", RVal.int r.ttl, RVal.int r.limit,
              RVal.int ((slidingSum s service r.timestamp r.ttl : Int) + 1)]
          else some [RVal.int 0, RVal.str "rate", RVal.int r.ttl, RVal.int r.limit])) := by
  refine ⟨rate_single s service r, ?_, ?_⟩
  · intro s2 h
    rw [rate_single s service r, rate_single s2 service r,
      slidingSum_agree s s2 service r.timestamp r.ttl h]
  · intro hlim
    rw [rate_single s service r, echo_exact _ hlim.1 hlim.2, tonumber_exact _ hlim.1 hlim.2]

/-- Witness of C7: limit 5 over a 60 s window; the ten segments sum to 4, so the
call is admitted with consumption 5, and the store with older segments filled
gives the same reply. -/
theorem rate_sums_ten_segments_witness :
    (∀ i : Nat, i < 10 →
      slideStoreOlder ⟨"c1", Classify.rate, (1704067320000 : Int) - (i : Int) * (60 * 1000 / 10)⟩
        = slideStore ⟨"c1", Classify.rate, (1704067320000 : Int) - (i : Int) * (60 * 1000 / 10)⟩) ∧
    (multicounter slideStore "c1" [] [⟨1704067320000, 60, 5⟩]).reply
      = some [RVal.int 1, RVal.str "rate", RVal.int 60, RVal.int 5, RVal.int 5] ∧
    (multicounter slideStoreOlder "c1" [] [⟨1704067320000, 60, 5⟩]).reply
      = (multicounter slideStore "c1" [] [⟨1704067320000, 60, 5⟩]).reply :=
  ⟨by decide,
   (rate_sums_ten_segments slideStore "c1" ⟨1704067320000, 60, 5⟩).1.trans (by decide),
   (rate_sums_ten_segments slideStore "c1" ⟨1704067320000, 60, 5⟩).2.1 slideStoreOlder
     (by decide)⟩

/-! ## The sliding-window procedure at a concrete input -/

/-- C8, the code at the failing input: limit "5" configured, empty store,
segment timestamp 1704067266 (×1000 ms), window 60 s. The aggregate is 0, below
the limit, yet the procedure raises a Lua error and increments nothing: the
current segment's bucket is left at 0 as SETNX created it, without a time to
live. The error is raised in the first round of the loop, where line 85
assigns to the undeclared variable `ret`. -/
theorem slidingwindow_misses_increment :
    (slidingwindowScript Store.empty (some "5") ("c1", Classify.rate) 1704067266 60).reply
      = none ∧
    (slidingwindowScript Store.empty (some "5") ("c1", Classify.rate) 1704067266 60).store
        ⟨"c1", Classify.rate, 1704067266000⟩ = some ⟨0, none⟩ ∧
    slidingwindowLoop (SETNX Store.empty ⟨"c1", Classify.rate, 1704067266000⟩).1
        ("c1", Classify.rate) 1704067266000 60 (List.range 10)
        (⟨"c1", Classify.rate, 1704067266000⟩, 0)
      = none := by
  decide

/-! ## Period resolver: alignment -/

theorem daysInMonth_bounds (year month : Nat) :
    1 ≤ daysInMonth year month ∧ daysInMonth year month ≤ 31 := by
  unfold daysInMonth
  split
  · split <;> omega
  · split <;> omega

theorem monthFloorFrom_bounds (fuel year month start day : Nat)
    (hstart : start ≤ day) (hfuel : day < start + fuel) :
    monthFloorFrom fuel year month start day ≤ day ∧
    day < monthFloorFrom fuel year month start day + 31 := by
  induction fuel generalizing year month start with
  | zero => omega
  | succ fuel ih =>
    have hb := daysInMonth_bounds year month
    unfold monthFloorFrom
    split
    · omega
    · exact ih _ _ _ (by omega) (by omega)

theorem monthStartDay_bounds (day : Nat) :
    monthStartDay day ≤ day ∧ day < monthStartDay day + 31 :=
  monthFloorFrom_bounds (day + 1) 1970 1 0 day (Nat.zero_le _) (by omega)

theorem monthFloorFrom_isStart (fuel n day : Nat)
    (hstart : monthStartOf n ≤ day) (hfuel : day < monthStartOf n + fuel) :
    ∃ m, monthFloorFrom fuel (1970 + n / 12) (n % 12 + 1) (monthStartOf n) day = monthStartOf m ∧
      monthStartOf m ≤ day ∧ day < monthStartOf (m + 1) := by
  induction fuel generalizing n with
  | zero => omega
  | succ fuel ih =>
    have hb := daysInMonth_bounds (1970 + n / 12) (n % 12 + 1)
    unfold monthFloorFrom
    split
    · exact ⟨n, rfl, hstart, by simpa [monthStartOf] using ‹_›⟩
    · have hy : (if n % 12 + 1 = 12 then 1970 + n / 12 + 1 else 1970 + n / 12)
          = 1970 + (n + 1) / 12 := by split <;> omega
      have hmo : (if n % 12 + 1 = 12 then 1 else n % 12 + 1 + 1) = (n + 1) % 12 + 1 := by
        split <;> omega
      have hs : monthStartOf n + daysInMonth (1970 + n / 12) (n % 12 + 1)
          = monthStartOf (n + 1) := rfl
      rw [hy, hmo, hs]
      exact ih (n + 1) (by rw [← hs]; omega) (by rw [← hs]; omega)

/-- The day `monthStartDay day` is the first day of the calendar month that
contains `day`. -/
theorem monthStartDay_isStart (day : Nat) :
    ∃ m, monthStartDay day = monthStartOf m ∧
      monthStartOf m ≤ day ∧ day < monthStartOf (m + 1) := by
  have h := monthFloorFrom_isStart (day + 1) 0 day (Nat.zero_le _)
    (by simp only [monthStartOf]; omega)
  simpa [monthStartDay, monthStartOf] using h

/-- Known first days of months: 1970-01-31 lies in the month starting on day 0,
1970-02-01 is day 31, 2000-02-29 lies in the month starting 2000-02-01 (day
10988), 2024-02-29 in the month starting 2024-02-01 (day 19754), and 2024-03-01
is day 19783. -/
theorem monthStartDay_examples :
    monthStartDay 30 = 0 ∧ monthStartDay 31 = 31 ∧ monthStartDay 11016 = 10988 ∧
    monthStartDay 19782 = 19754 ∧ monthStartDay 19783 = 19783 := by
  set_option maxRecDepth 100000 in decide

/-- Before the `int64` nanosecond count overflows, `ConvertTime` returns the
truncated time itself. -/
theorem ConvertTime_exact (timeFormat : String) (now p : Nat)
    (hp : parseFormatted timeFormat now = (p : Int)) (hle : p ≤ now)
    (hnow : now * 1000000 < 2 ^ 63) :
    ConvertTime timeFormat now = (p : Int) := by
  unfold ConvertTime
  have h0 : (0 : Int) ≤ (p : Int) * 1000000 := by positivity
  rw [hp, wrapInt64_exact _ (by omega) (by push_cast at *; omega)]
  rw [Int.tdiv_eq_ediv (by positivity) (by norm_num)]
  exact Int.mul_ediv_cancel _ (by norm_num)

/-- C10. Quota alignment: for each of the five valid period names and every
current time `now` in milliseconds (local zone UTC, before the `int64`
nanosecond clock overflows in 2262), `ConvertQuotaPeriod` returns the documented
TTL (1, 60, 3600, 86400, 31·86400 seconds) and a timestamp in milliseconds that
is `now` truncated to the period's boundary: ⌊now / (TTL·1000)⌋ · TTL·1000 for
second, minute, hour and day, the first instant of the calendar month of `now`
for month (the first day of some month m, with `now` before the first day of
month m + 1), and in every case timestamp ≤ now < timestamp + TTL·1000. -/
theorem quota_alignment (now : Nat) (hnow : now * 1000000 < 2 ^ 63) :
    ConvertQuotaPeriod "second" now = (((now / (1 * 1000) * (1 * 1000) : Nat) : Int), 1) ∧
    ConvertQuotaPeriod "minute" now = (((now / (60 * 1000) * (60 * 1000) : Nat) : Int), 60) ∧
    ConvertQuotaPeriod "hour" now
      = (((now / (3600 * 1000) * (3600 * 1000) : Nat) : Int), 3600) ∧
    ConvertQuotaPeriod "day" now
      = (((now / (86400 * 1000) * (86400 * 1000) : Nat) : Int), 86400) ∧
    ConvertQuotaPeriod "month" now
      = (((monthStartDay (now / 86400000) * 86400000 : Nat) : Int), 31 * 86400) ∧
    (∃ m, (ConvertQuotaPeriod "month" now).1 = ((monthStartOf m * 86400000 : Nat) : Int) ∧
      monthStartOf m * 86400000 ≤ now ∧ now < monthStartOf (m + 1) * 86400000) ∧
    ∀ period ∈ ["second", "minute", "hour", "day", "month"],
      (ConvertQuotaPeriod period now).1 ≤ (now : Int) ∧
      (now : Int) < (ConvertQuotaPeriod period now).1 + (ConvertQuotaPeriod period now).2 * 1000 := by
  have hm := monthStartDay_bounds (now / 86400000)
  have h1 : ConvertTime "2006-01-02_15:04:05" now = ((now / 1000 * 1000 : Nat) : Int) :=
    ConvertTime_exact _ now _ (by simp [parseFormatted]) (by omega) hnow
  have h2 : ConvertTime "2006-01-02_15:04" now = ((now / 60000 * 60000 : Nat) : Int) :=
    ConvertTime_exact _ now _ (by simp [parseFormatted]) (by omega) hnow
  have h3 : ConvertTime "2006-01-02_15" now = ((now / 3600000 * 3600000 : Nat) : Int) :=
    ConvertTime_exact _ now _ (by simp [parseFormatted]) (by omega) hnow
  have h4 : ConvertTime "2006-01-02" now = ((now / 86400000 * 86400000 : Nat) : Int) :=
    ConvertTime_exact _ now _ (by simp [parseFormatted]) (by omega) hnow
  have h5 : ConvertTime "2006-01" now
      = ((monthStartDay (now / 86400000) * 86400000 : Nat) : Int) :=
    ConvertTime_exact _ now _ (by simp [parseFormatted]) (by omega) hnow
  have e1 : ConvertQuotaPeriod "second" now = (((now / 1000 * 1000 : Nat) : Int), 1) := by
    simp [ConvertQuotaPeriod, h1]
  have e2 : ConvertQuotaPeriod "minute" now = (((now / 60000 * 60000 : Nat) : Int), 60) := by
    simp [ConvertQuotaPeriod, h2]
  have e3 : ConvertQuotaPeriod "hour" now = (((now / 3600000 * 3600000 : Nat) : Int), 3600) := by
    simp [ConvertQuotaPeriod, h3]
  have e4 : ConvertQuotaPeriod "day" now
      = (((now / 86400000 * 86400000 : Nat) : Int), 86400) := by
    simp [ConvertQuotaPeriod, h4]
  have e5 : ConvertQuotaPeriod "month" now
      = (((monthStartDay (now / 86400000) * 86400000 : Nat) : Int), 2678400) := by
    simp [ConvertQuotaPeriod, h5]
  refine ⟨e1, e2, e3, e4, e5, ?_, ?_⟩
  · obtain ⟨m, hm1, hm2, hm3⟩ := monthStartDay_isStart (now / 86400000)
    exact ⟨m, by rw [e5, hm1], by omega, by omega⟩
  intro period hperiod
  simp only [List.mem_cons, List.mem_singleton, List.not_mem_nil, or_false] at hperiod
  rcases hperiod with rfl | rfl | rfl | rfl | rfl
  · rw [e1]; constructor <;> (push_cast; omega)
  · rw [e2]; constructor <;> (push_cast; omega)
  · rw [e3]; constructor <;> (push_cast; omega)
  · rw [e4]; constructor <;> (push_cast; omega)
  · rw [e5]; constructor <;> (push_cast; omega)

/-- Witness of C10 at 2024-01-01 02:30:00 UTC: the hour rule is aligned to
02:00:00. -/
theorem quota_alignment_witness :
    1704076200000 * 1000000 < 2 ^ 63 ∧
    ConvertQuotaPeriod "hour" 1704076200000 = (1704074400000, 3600) :=
  ⟨by decide, (quota_alignment 1704076200000 (by decide)).2.2.1.trans (by decide)⟩

/-! ## Period resolver: rate alignment -/

/-- C9, the code at the failing input: at 2024-01-01 02:30:00 UTC the day rate
rule (segment 8640000 ms = 2 h 24 min) gets the timestamp of 00:00:00, because
the time is cut to the hour 02:00:00 before it is floored to the segment; the
segment of `now` starts at 02:24:00 (1704075840000), and the returned
timestamp plus one segment is not after `now`. The TTL is that of the quota
resolver. -/
theorem rate_day_alignment_behind :
    ConvertRatePeriod "day" 1704076200000 = some (1704067200000, 86400) ∧
    (ConvertQuotaPeriod "day" 1704076200000).2 = 86400 ∧
    (1704076200000 : Int) / 8640000 * 8640000 = 1704075840000 ∧
    (1704067200000 : Int) + 8640000 ≤ 1704076200000 := by
  decide

theorem ConvertRatePeriod_eq (period timeFormat : String) (now p seg : Nat) (ttl : Int)
    (hfmt : ratePeriodFormat period = (ttl, timeFormat))
    (hseg : (ttl * 1000).tdiv rateSegment = (seg : Int)) (hseg0 : seg ≠ 0)
    (hct : ConvertTime timeFormat now = (p : Int)) :
    ConvertRatePeriod period now = some (((p / seg * seg : Nat) : Int), ttl) := by
  have hne : ¬ ((seg : Int) = 0) := by exact_mod_cast hseg0
  unfold ConvertRatePeriod
  simp only [hfmt, hseg, hct, hne, if_false, ← Int.ofNat_tdiv, Nat.cast_mul]

/-- For second, minute and hour the layout unit divides the segment, and the
rate timestamp is `now` floor-aligned to the segment of TTL·1000/10 ms. -/
theorem rate_alignment_fine (now : Nat) (hnow : now * 1000000 < 2 ^ 63) :
    ConvertRatePeriod "second" now = some (((now / 100 * 100 : Nat) : Int), 1) ∧
    ConvertRatePeriod "minute" now = some (((now / 6000 * 6000 : Nat) : Int), 60) ∧
    ConvertRatePeriod "hour" now = some (((now / 360000 * 360000 : Nat) : Int), 3600) := by
  have h1 : ConvertTime "2006-01-02_15:04:05.000" now = ((now : Nat) : Int) :=
    ConvertTime_exact _ now _ (by simp [parseFormatted]) (le_refl _) hnow
  have h2 : ConvertTime "2006-01-02_15:04:05" now = ((now / 1000 * 1000 : Nat) : Int) :=
    ConvertTime_exact _ now _ (by simp [parseFormatted]) (by omega) hnow
  have h3 : ConvertTime "2006-01-02_15:04" now = ((now / 60000 * 60000 : Nat) : Int) :=
    ConvertTime_exact _ now _ (by simp [parseFormatted]) (by omega) hnow
  have e2 : (now / 1000 * 1000) / 6000 * 6000 = now / 6000 * 6000 := by omega
  have e3 : (now / 60000 * 60000) / 360000 * 360000 = now / 360000 * 360000 := by omega
  refine ⟨?_, ?_, ?_⟩
  · exact ConvertRatePeriod_eq "second" _ now now 100 1 (by decide) (by decide) (by decide) h1
  · rw [← e2]
    exact ConvertRatePeriod_eq "minute" _ now _ 6000 60 (by decide) (by decide) (by decide) h2
  · rw [← e3]
    exact ConvertRatePeriod_eq "hour" _ now _ 360000 3600 (by decide) (by decide) (by decide) h3

/-! ## Unrecognised period names -/

/-- The quota resolver rejects every unrecognised period name with `(0, 0)`. -/
theorem ConvertQuotaPeriod_unknown (period : String) (now : Nat)
    (h : period ∉ ["second", "minute", "hour", "day", "month"]) :
    ConvertQuotaPeriod period now = (0, 0) := by
  simp only [List.mem_cons, List.mem_singleton, List.not_mem_nil, or_false, not_or] at h
  obtain ⟨h1, h2, h3, h4, h5⟩ := h
  simp [ConvertQuotaPeriod, h1, h2, h3, h4, h5]

/-- The rate resolver divides by the zero segment of every unrecognised period
name. -/
theorem ConvertRatePeriod_unknown (period : String) (now : Nat)
    (h : period ∉ ["second", "minute", "hour", "day", "month"]) :
    ConvertRatePeriod period now = none := by
  simp only [List.mem_cons, List.mem_singleton, List.not_mem_nil, or_false, not_or] at h
  obtain ⟨h1, h2, h3, h4, h5⟩ := h
  have hf : ratePeriodFormat period = (0, "") := by
    simp [ratePeriodFormat, h1, h2, h3, h4, h5]
  simp [ConvertRatePeriod, hf, rateSegment]

/-- C11, the code at the failing input: for the unrecognised period name "week"
the quota resolver returns the rejected outcome `(0, 0)` and `Check` on a quota
mapping that contains it returns the period-convert error with the store
untouched; the rate resolver does not complete, it panics on the division by
the segment 0, and so does `Check` on a rate mapping that contains the name
(also without touching the store). -/
theorem unknown_rate_period_panics :
    ConvertQuotaPeriod "week" 1704076200000 = (0, 0) ∧
    ConvertRatePeriod "week" 1704076200000 = none ∧
    Check 1704076200000 commitStore "c1" [("week", 5)] []
      = (commitStore, CheckOutcome.error CheckError.errPeriodConvert) ∧
    Check 1704076200000 commitStore "c1" [] [("week", 5)]
      = (commitStore, CheckOutcome.goPanic) ∧
    Check 1704076200000 commitStore "c1" [("minute", 3)] [("week", 5)]
      = (commitStore, CheckOutcome.goPanic) :=
  ⟨by decide, by decide, rfl, rfl, rfl⟩

/-! ## The counter procedure behind `CheckQuota` -/

/-- C12, the code at the failing input: with limit "3" configured, the run that
finds the bucket at 2 is admitted (the bucket goes to 3) and replies limit "3"
and consumption-after 3; the run that finds the bucket at 3 is rejected (the
bucket stays at 3) and replies limit "3" and consumption-after "3". Both
replies carry limit 3 and consumption-after 3 (the number for the admitted run,
the string for the rejected one), so comparing consumption-after with the
limit does not tell them apart, and `CheckQuota` panics on the table reply in
both runs instead of reporting the over-quota error for the rejected one. -/
theorem counter_reply_hides_rejection :
    (CheckQuotaScript 1704076200000 (quotaDb 2) "c1" "minute").reply
      = some [RVal.str "3", RVal.int 3] ∧
    (CheckQuotaScript 1704076200000 (quotaDb 2) "c1" "minute").store.consumption
      ⟨"c1", Classify.quota, 1704076200000000⟩ = 3 ∧
    (CheckQuotaScript 1704076200000 (quotaDb 3) "c1" "minute").reply
      = some [RVal.str "3", RVal.str "3"] ∧
    (CheckQuotaScript 1704076200000 (quotaDb 3) "c1" "minute").store.consumption
      ⟨"c1", Classify.quota, 1704076200000000⟩ = 3 ∧
    (CheckQuota 1704076200000 (quotaDb 2) "c1" "minute").2 = QuotaOutcome.goPanic ∧
    (CheckQuota 1704076200000 (quotaDb 3) "c1" "minute").2 = QuotaOutcome.goPanic := by
  decide

/-- C13, the code at the failing input: limit "10" and an absent bucket. The
first two runs increment and return consumption 1 and 2; the third run finds
consumption "2", which is not below "10" as a string, does not increment and
returns ("10", "2"); after 11 runs the bucket holds 2, not 10. -/
theorem counter_compares_strings :
    (counterScript Store.empty (some "10") ("c1", Classify.quota) 1704076200 60).reply
      = some [RVal.str "10", RVal.int 1] ∧
    (counterScript (counterRuns (some "10") ("c1", Classify.quota) 1704076200 60 Store.empty 1)
        (some "10") ("c1", Classify.quota) 1704076200 60).reply
      = some [RVal.str "10", RVal.int 2] ∧
    (counterScript (counterRuns (some "10") ("c1", Classify.quota) 1704076200 60 Store.empty 2)
        (some "10") ("c1", Classify.quota) 1704076200 60).reply
      = some [RVal.str "10", RVal.str "2"] ∧
    (counterRuns (some "10") ("c1", Classify.quota) 1704076200 60 Store.empty 3).consumption
      ⟨"c1", Classify.quota, 1704076200000⟩ = 2 ∧
    (counterRuns (some "10") ("c1", Classify.quota) 1704076200 60 Store.empty 11).consumption
      ⟨"c1", Classify.quota, 1704076200000⟩ = 2 := by
  decide

/-- C14, the code at the failing input: `PutConfig` writes the hash `c1_quota`,
where `GetConfig` finds the limit 3, but the counter procedure that `CheckQuota`
invokes reads the string key `c1_quota_config_minute`, which `PutConfig` never
writes (the hash it writes is named `c1_quota`): the procedure replies the
unconfigured limit 0 with consumption 0 and creates no bucket, and for every
store, client, period and limit the call made by `CheckQuota` is the same after
`PutConfig` as before it. -/
theorem checkquota_ignores_putconfig :
    GetConfig (PutConfig Redis.empty "c1" Classify.quota [("minute", 3)]) "c1" Classify.quota
      "minute" = some 3 ∧
    (CheckQuotaScript 1704076200000
      (PutConfig Redis.empty "c1" Classify.quota [("minute", 3)]) "c1" "minute").reply
      = some [RVal.int 0, RVal.int 0] ∧
    (CheckQuotaScript 1704076200000
      (PutConfig Redis.empty "c1" Classify.quota [("minute", 3)]) "c1" "minute").store
      ⟨"c1", Classify.quota, 1704076200000000⟩ = none ∧
    counterConfigName "c1" "minute" = "c1_quota_config_minute" ∧
    configHashName "c1" Classify.quota = "c1_quota" ∧
    (∀ (now : Nat) (db : Redis) (key period : String) (limit : Int),
      CheckQuotaScript now (PutConfig db key Classify.quota [(period, limit)]) key period
        = CheckQuotaScript now db key period) :=
  ⟨by decide, by decide, by decide, by decide, by decide, fun _ _ _ _ _ => rfl⟩

/-! ## Empty configuration -/

/-- C15. Empty configuration: for every client whose quota mapping and rate
mapping are both empty, at every time and on every store, `Check` returns the
empty-config error and no result list, and the store is the store before the
call: the atomic transaction is not executed. -/
theorem check_empty_config (now : Nat) (s : Store) (key : String) :
    Check now s key [] [] = (s, CheckOutcome.error CheckError.errEmptyConfig) := by
  simp [Check, resolveQuota, resolveRate]

/-! ## Configuration round trip -/

theorem foldl_HSET_other (rules : List (String × Int)) (hashes : ConfigHashes)
    (key : String) (ext : Classify) (k : String) (e : Classify) (f : String)
    (h : ¬ (k = key ∧ e = ext) ∨ f ∉ rules.map Prod.fst) :
    rules.foldl (fun h c => HSET h key ext c.1 c.2) hashes k e f = hashes k e f := by
  induction rules generalizing hashes with
  | nil => rfl
  | cons c rules ih =>
    rw [List.foldl_cons, ih]
    · unfold HSET
      have hne : ¬ (k = key ∧ e = ext ∧ f = c.1) := by
        rintro ⟨h1, h2, h3⟩
        rcases h with h | h
        · exact h ⟨h1, h2⟩
        · exact h (by simp [h3])
      simp only [hne, if_false]
    · rcases h with h | h
      · exact Or.inl h
      · exact Or.inr (fun hm => h (by simp only [List.map_cons, List.mem_cons]; exact Or.inr hm))

theorem foldl_HSET_mem (rules : List (String × Int)) (hashes : ConfigHashes)
    (key : String) (ext : Classify) (hnodup : (rules.map Prod.fst).Nodup)
    (p : String) (v : Int) (hmem : (p, v) ∈ rules) :
    rules.foldl (fun h c => HSET h key ext c.1 c.2) hashes key ext p = some v := by
  induction rules generalizing hashes with
  | nil => simp at hmem
  | cons c rules ih =>
    rw [List.map_cons, List.nodup_cons] at hnodup
    rw [List.foldl_cons]
    rcases List.mem_cons.mp hmem with hc | hc
    · subst hc
      rw [foldl_HSET_other rules _ key ext key ext p (Or.inr hnodup.1)]
      simp [HSET]
    · exact ih _ hnodup.2 hc

/-- C16. Config round trip: for every client, kind, prior store and mapping
`rules` (a Go map, so with distinct periods), after `PutConfig(client, kind,
rules)` the mapping `GetConfig(client, kind)` returns is the prior mapping
overridden by `rules`: every period of `rules` maps to exactly the limit put,
every other period keeps its prior value, with an empty prior mapping the
result has exactly the entries of `rules`; the mapping of any other client or
kind, the buckets and the string keys are unchanged. -/
theorem config_round_trip (db : Redis) (key : String) (ext : Classify)
    (rules : List (String × Int)) (hnodup : (rules.map Prod.fst).Nodup) :
    (∀ p v, (p, v) ∈ rules → GetConfig (PutConfig db key ext rules) key ext p = some v) ∧
    (∀ p, p ∉ rules.map Prod.fst →
      GetConfig (PutConfig db key ext rules) key ext p = GetConfig db key ext p) ∧
    ((∀ p, GetConfig db key ext p = none) →
      ∀ p v, GetConfig (PutConfig db key ext rules) key ext p = some v ↔ (p, v) ∈ rules) ∧
    (∀ key' ext', ¬ (key' = key ∧ ext' = ext) →
      GetConfig (PutConfig db key ext rules) key' ext' = GetConfig db key' ext') ∧
    (PutConfig db key ext rules).buckets = db.buckets ∧
    (PutConfig db key ext rules).strings = db.strings := by
  have hmem : ∀ p v, (p, v) ∈ rules →
      GetConfig (PutConfig db key ext rules) key ext p = some v :=
    fun p v h => foldl_HSET_mem rules db.hashes key ext hnodup p v h
  have hother : ∀ p, p ∉ rules.map Prod.fst →
      GetConfig (PutConfig db key ext rules) key ext p = GetConfig db key ext p :=
    fun p h => foldl_HSET_other rules db.hashes key ext key ext p (Or.inr h)
  refine ⟨hmem, hother, ?_, ?_, rfl, rfl⟩
  · intro hempty p v
    constructor
    · intro hget
      by_cases hp : p ∈ rules.map Prod.fst
      · obtain ⟨⟨p', v'⟩, hin, hfst⟩ := List.mem_map.mp hp
        simp only at hfst
        subst hfst
        have := hmem p' v' hin
        rw [this] at hget
        cases hget
        exact hin
      · rw [hother p hp, hempty p] at hget
        cases hget
    · exact hmem p v
  · intro key' ext' hne
    funext p
    exact foldl_HSET_other rules db.hashes key ext key' ext' p (Or.inl hne)

/-- Witness of C16: putting minute ↦ 3 and day ↦ 500 over hour ↦ 100,
minute ↦ 7 gives minute ↦ 3, and the hour entry keeps 100. -/
theorem config_round_trip_witness :
    ([("minute", (3 : Int)), ("day", 500)].map Prod.fst).Nodup ∧
    GetConfig (PutConfig configDb "c1" Classify.quota [("minute", 3), ("day", 500)]) "c1"
      Classify.quota "minute" = some 3 ∧
    GetConfig (PutConfig configDb "c1" Classify.quota [("minute", 3), ("day", 500)]) "c1"
      Classify.quota "hour" = some 100 :=
  ⟨by decide,
   (config_round_trip configDb "c1" Classify.quota [("minute", 3), ("day", 500)]
     (by decide)).1 "minute" 3 (by decide),
   ((config_round_trip configDb "c1" Classify.quota [("minute", 3), ("day", 500)]
     (by decide)).2.1 "hour" (by decide)).trans (by decide)⟩

/-! ## No bucket without a time to live -/

theorem INCR_map_ttl (s : Store) (k : BucketKey) (h : s k ≠ none) (k' : BucketKey) :
    (INCR s k k').map Bucket.ttl = (s k').map Bucket.ttl := by
  unfold INCR
  cases hs : s k with
  | none => exact absurd hs h
  | some b =>
    by_cases hk : k' = k
    · subst hk; simp [Store.put, hs]
    · simp [Store.put, hk]

theorem foldl_INCR_map_ttl (keys : List BucketKey) (s : Store)
    (h : ∀ k ∈ keys, s k ≠ none) (k' : BucketKey) :
    (keys.foldl INCR s k').map Bucket.ttl = (s k').map Bucket.ttl := by
  induction keys generalizing s with
  | nil => rfl
  | cons a keys ih =>
    have ha : s a ≠ none := h a (List.mem_cons_self _ _)
    rw [List.foldl_cons, ih, INCR_map_ttl s a ha]
    intro k hk hnone
    have := INCR_map_ttl s a ha k
    rw [hnone] at this
    have hsk : s k ≠ none := h k (List.mem_cons_of_mem _ hk)
    cases hs : s k with
    | none => exact hsk hs
    | some b => simp [hs] at this

theorem AllTTL_of_map_ttl (s1 s2 : Store) (h1 : AllTTL s1)
    (h : ∀ k, (s2 k).map Bucket.ttl = (s1 k).map Bucket.ttl) : AllTTL s2 := by
  intro k b hb
  have hk := h k
  rw [hb] at hk
  cases hs : s1 k with
  | none => simp [hs] at hk
  | some b1 =>
    simp only [hs, Option.map_some', Option.some.injEq] at hk
    rw [hk]
    exact h1 k b1 hs

theorem AllTTL_of_created (service : String) (crs : List (Classify × Rule)) (s1 s2 : Store)
    (h1 : AllTTL s1) (h : CreatedBy service crs s1 s2) : AllTTL s2 := by
  intro k b hb
  rcases h k with he | ⟨_, cr, _, _, hc⟩
  · exact h1 k b (he ▸ hb)
  · rw [hc] at hb
    cases hb
    simp

theorem createIfAbsent_exists (s : Store) (k : BucketKey) (ttl : Int) (h : 0 < ttl) :
    createIfAbsent s k ttl k ≠ none := by
  unfold createIfAbsent
  cases hs : s k with
  | some b => simp [hs]
  | none =>
    have ht : ¬ ttl ≤ 0 := by omega
    simp [ht, Store.put]

theorem evalRules_keeps_key (service : String) (crs : List (Classify × Rule))
    (st : MultiState) (k : BucketKey) (h : st.store k ≠ none) :
    (evalRules service crs st).store k ≠ none := by
  have hc := evalRules_created st.store service crs [] st (CreatedBy.refl service [] st.store)
  rcases hc k with he | ⟨hn, _⟩
  · rw [he]; exact h
  · exact absurd hn h

/-- When every rule passes and every window length is positive, the bucket of
every rule exists in the store the checks leave. -/
theorem evalRules_keys_exist (s : Store) (service : String) (crs : List (Classify × Rule))
    (st : MultiState)
    (hs : ∀ k, st.store.consumption k = s.consumption k)
    (hcheck : st.check = true) (hraised : st.raised = false)
    (httl : ∀ cr ∈ crs, 0 < cr.2.ttl)
    (hpass : ∀ cr ∈ crs, passes s service cr) :
    ∀ k ∈ crs.map (fun cr => ruleKey service cr.1 cr.2),
      (evalRules service crs st).store k ≠ none := by
  induction crs generalizing st with
  | nil => intro k hk; simp at hk
  | cons cr crs ih =>
    have hstop : ¬ (st.check = false ∨ st.raised = true) := by simp [hcheck, hraised]
    have hp : passes s service cr := hpass cr (List.mem_cons_self _ _)
    have hpos : 0 < cr.2.ttl := httl cr (List.mem_cons_self _ _)
    have hsp := evalRule_spec s service cr st hs (fun _ => hpos)
    simp only [hp, if_true] at hsp
    intro k hk
    simp only [evalRules, hstop, if_false]
    rw [List.map_cons, List.mem_cons] at hk
    rcases hk with hk | hk
    · apply evalRules_keeps_key
      rw [hsp, hk]
      exact createIfAbsent_exists _ _ _ hpos
    · exact ih (evalRule service cr st)
        (by intro k; rw [hsp]; simp only [createIfAbsent_consumption, hs])
        (by rw [hsp]; exact hcheck) (by rw [hsp]; exact hraised)
        (fun x hx => httl x (List.mem_cons_of_mem _ hx))
        (fun x hx => hpass x (List.mem_cons_of_mem _ hx)) k hk

theorem classified_ttl_all (quotaRules rateRules : List Rule)
    (httl : ∀ r ∈ quotaRules ++ rateRules, 0 < r.ttl) :
    ∀ cr ∈ classified quotaRules rateRules, 0 < cr.2.ttl := by
  intro cr hcr
  simp only [classified, List.mem_append, List.mem_map] at hcr
  rcases hcr with ⟨r, hr, rfl⟩ | ⟨r, hr, rfl⟩
  · exact httl r (List.mem_append_left _ hr)
  · exact httl r (List.mem_append_right _ hr)

/-- When every rule passes and every window length is positive, the commit
increments keys that exist in the store the checks leave. -/
theorem multicounter_pass_exists (s : Store) (service : String)
    (quotaRules rateRules : List Rule)
    (httl : ∀ r ∈ quotaRules ++ rateRules, 0 < r.ttl)
    (hpass : ∀ cr ∈ classified quotaRules rateRules, passes s service cr) :
    ∃ s1, CreatedBy service (classified quotaRules rateRules) s s1 ∧
      (∀ k ∈ ruleKeys service quotaRules rateRules, s1 k ≠ none) ∧
      (multicounter s service quotaRules rateRules).store
        = (ruleKeys service quotaRules rateRules).foldl INCR s1 := by
  have hall := classified_ttl_all quotaRules rateRules httl
  have hc := evalRules_created s service (classified quotaRules rateRules) [] (MultiState.init s)
    (CreatedBy.refl service [] s)
  have hex := evalRules_keys_exist s service (classified quotaRules rateRules)
    (MultiState.init s) (fun _ => rfl) rfl rfl hall hpass
  obtain ⟨h1, h2, h3, _, _, _⟩ := evalRules_pass s service (classified quotaRules rateRules)
    (MultiState.init s) (fun _ => rfl) rfl rfl (fun cr hcr _ => hall cr hcr) hpass
  rw [multicounter_eq]
  generalize evalRules service (classified quotaRules rateRules) (MultiState.init s) = st
    at hc h1 h2 h3 hex
  simp only [MultiState.init, List.nil_append] at h3 hc
  simp only [h1, h2, if_true, Bool.false_eq_true, if_false, h3, ruleKeys]
  exact ⟨st.store, hc, hex, rfl⟩

/-- Time to live of every key after a run of `counterScript` with a positive
window length: the bucket the run created has the window length, every other
key has what it had. -/
theorem counterScript_map_ttl (s : Store) (quota : Option String)
    ( key_prefix : String × Classify) (timestamp ttl : Int) (hpos : 0 < ttl) (k : BucketKey) :
    ((counterScript s quota key_prefix timestamp ttl).store k).map Bucket.ttl
      = if k = ⟨ key_prefix.1, key_prefix.2, timestamp * 1000⟩ ∧
            s ⟨ key_prefix.1, key_prefix.2, timestamp * 1000⟩ = none ∧ quota ≠ none
        then some (some ttl) else (s k).map Bucket.ttl := by
  have ht : ¬ ttl ≤ 0 := by omega
  cases quota with
  | none => simp [counterScript]
  | some q =>
    cases hs : s ⟨ key_prefix.1, key_prefix.2, timestamp * 1000⟩ with
    | none =>
      by_cases hk : k = ⟨ key_prefix.1, key_prefix.2, timestamp * 1000⟩
      · subst hk
        by_cases hlt : luaStrLt (toString 0).data q.data = true <;>
          simp [counterScript, SETNX, hs, GET, Store.put, luaLt, INCR, EXPIRE, ht, hlt]
      · by_cases hlt : luaStrLt (toString 0).data q.data = true <;>
          simp [counterScript, SETNX, hs, GET, Store.put, luaLt, INCR, EXPIRE, ht, hlt, hk]
    | some b =>
      by_cases hk : k = ⟨ key_prefix.1, key_prefix.2, timestamp * 1000⟩
      · subst hk
        by_cases hlt : luaStrLt (toString b.value).data q.data = true <;>
          simp [counterScript, SETNX, hs, GET, Store.put, luaLt, INCR, hlt]
      · by_cases hlt : luaStrLt (toString b.value).data q.data = true <;>
          simp [counterScript, SETNX, hs, GET, Store.put, luaLt, INCR, hlt, hk]

theorem AllTTL_empty : AllTTL Store.empty := by
  intro k b h
  cases h

theorem AllTTL_put (s : Store) (k : BucketKey) (v : Nat) (t : Int) (h : AllTTL s) :
    AllTTL (s.put k (some ⟨v, some t⟩)) := by
  intro k' b hb
  unfold Store.put at hb
  split at hb
  · cases hb; simp
  · exact h k' b hb

/-- C17. No orphaned never-expiring bucket on the live paths: for every store in
which every existing bucket key has a TTL, after any run of the multi-counter
algorithm (every rule with a positive window length; the run ends admitted or
aborted, never in an error) and after any run of the counter algorithm
(positive window length), every bucket key of the store still has a TTL; every
key the run creates has as TTL the window length of the rule that created it;
and when the multi-counter admits, the commit step increments keys that all
exist in the store the checks left. -/
theorem no_orphan_buckets (s : Store) (service : String) (quotaRules rateRules : List Rule)
    (quota : Option String) ( key_prefix : String × Classify) (timestamp ttl : Int)
    (hs : AllTTL s) (httl : ∀ r ∈ quotaRules ++ rateRules, 0 < r.ttl) (hpos : 0 < ttl) :
    (multicounter s service quotaRules rateRules).reply ≠ none ∧
    AllTTL (multicounter s service quotaRules rateRules).store ∧
    (∀ k b, s k = none → (multicounter s service quotaRules rateRules).store k = some b →
      ∃ cr ∈ classified quotaRules rateRules,
        ruleKey service cr.1 cr.2 = k ∧ b.ttl = some cr.2.ttl) ∧
    ((∀ cr ∈ classified quotaRules rateRules, passes s service cr) →
      ∃ s1, CreatedBy service (classified quotaRules rateRules) s s1 ∧
        (∀ k ∈ ruleKeys service quotaRules rateRules, s1 k ≠ none) ∧
        (multicounter s service quotaRules rateRules).store
          = (ruleKeys service quotaRules rateRules).foldl INCR s1) ∧
    AllTTL (counterScript s quota key_prefix timestamp ttl).store ∧
    (∀ k b, s k = none → (counterScript s quota key_prefix timestamp ttl).store k = some b →
      b.ttl = some ttl) := by
  have hq : ∀ r ∈ quotaRules, 0 < r.ttl := fun r hr => httl r (List.mem_append_left _ hr)
  have hmulti : (multicounter s service quotaRules rateRules).reply ≠ none ∧
      ∃ s1, CreatedBy service (classified quotaRules rateRules) s s1 ∧
        ∀ k, ((multicounter s service quotaRules rateRules).store k).map Bucket.ttl
          = (s1 k).map Bucket.ttl := by
    by_cases hpass : ∀ cr ∈ classified quotaRules rateRules, passes s service cr
    · obtain ⟨s1, hc, hex, hstore⟩ :=
        multicounter_pass_exists s service quotaRules rateRules httl hpass
      obtain ⟨hreply, _⟩ := multicounter_pass s service quotaRules rateRules hq hpass
      refine ⟨by rw [hreply]; simp, s1, hc, ?_⟩
      intro k
      rw [hstore]
      exact foldl_INCR_map_ttl _ s1 hex k
    · have hover : ∃ cr ∈ classified quotaRules rateRules, ¬ passes s service cr := by
        by_contra hcon
        apply hpass
        intro cr hcr
        by_contra hnp
        exact hcon ⟨cr, hcr, hnp⟩
      obtain ⟨pre, cr, post, hsplit, hpre, hcr⟩ :=
        first_failing (passes s service) (classified quotaRules rateRules) hover
      obtain ⟨hreply, hstore⟩ := multicounter_fail s service quotaRules rateRules pre post cr
        hsplit hq hpre hcr
      refine ⟨by rw [hreply]; simp, _, ?_, fun k => by rw [hstore]⟩
      exact evalRules_created s service (classified quotaRules rateRules) []
        (MultiState.init s) (CreatedBy.refl service [] s)
  obtain ⟨hreply, s1, hc, hmap⟩ := hmulti
  refine ⟨hreply, ?_, ?_, ?_, ?_, ?_⟩
  · exact AllTTL_of_map_ttl s1 _ (AllTTL_of_created service _ s s1 hs hc) hmap
  · intro k b hk hb
    have hm := hmap k
    rw [hb] at hm
    rcases hc k with he | ⟨_, cr, hcr, hkey, hcreated⟩
    · rw [he, hk] at hm
      simp at hm
    · rw [hcreated] at hm
      simp only [Option.map_some', Option.some.injEq] at hm
      exact ⟨cr, hcr, hkey, hm⟩
  · intro hpass
    exact multicounter_pass_exists s service quotaRules rateRules httl hpass
  · apply AllTTL_of_map_ttl (fun k =>
      if k = ⟨ key_prefix.1, key_prefix.2, timestamp * 1000⟩ ∧
          s ⟨ key_prefix.1, key_prefix.2, timestamp * 1000⟩ = none ∧ quota ≠ none
      then some ⟨0, some ttl⟩ else s k)
    · intro k b hb
      simp only at hb
      split at hb
      · cases hb; simp
      · exact hs k b hb
    · intro k
      rw [counterScript_map_ttl s quota key_prefix timestamp ttl hpos k]
      split <;> rfl
  · intro k b hk hb
    have hm := counterScript_map_ttl s quota key_prefix timestamp ttl hpos k
    rw [hb] at hm
    split at hm
    · simpa using hm
    · rw [hk] at hm
      simp at hm

/-- Witness of C17 on the commit example: after the admitted evaluation of one
quota rule and one rate rule every key of the store has a TTL. -/
theorem no_orphan_buckets_witness :
    (AllTTL commitStore ∧
      (∀ r ∈ [(⟨1704067260000, 60, 3⟩ : Rule)] ++ [⟨1704067266000, 60, 5⟩], 0 < r.ttl) ∧
      (0 : Int) < 60) ∧
    AllTTL (multicounter commitStore "c1" [⟨1704067260000, 60, 3⟩]
      [⟨1704067266000, 60, 5⟩]).store ∧
    AllTTL (counterScript commitStore (some "3") ("c1", Classify.quota) 1704067260 60).store :=
  ⟨⟨AllTTL_put _ _ _ _ (AllTTL_put _ _ _ _ (AllTTL_put _ _ _ _ AllTTL_empty)),
      by decide, by decide⟩,
   (no_orphan_buckets commitStore "c1" [⟨1704067260000, 60, 3⟩] [⟨1704067266000, 60, 5⟩]
     (some "3") ("c1", Classify.quota) 1704067260 60
     (AllTTL_put _ _ _ _ (AllTTL_put _ _ _ _ (AllTTL_put _ _ _ _ AllTTL_empty)))
     (by decide) (by decide)).2.1,
   (no_orphan_buckets commitStore "c1" [⟨1704067260000, 60, 3⟩] [⟨1704067266000, 60, 5⟩]
     (some "3") ("c1", Classify.quota) 1704067260 60
     (AllTTL_put _ _ _ _ (AllTTL_put _ _ _ _ (AllTTL_put _ _ _ _ AllTTL_empty)))
     (by decide) (by decide)).2.2.2.2.1⟩

/-! ## The aggregate of the rate branch against the 4.3 sliding sum -/

theorem rateBranch_uses_aggregate (service : String) (value : Int) (st : MultiState) :
    (rateBranch service value st).check
      = (if (multicounterAggregate st.store service st.timestamp st.ttl : Int) < tonumber value
          then st.check else false) := by
  by_cases h : (multicounterAggregate st.store service st.timestamp st.ttl : Int) < tonumber value
  · have h' := h
    unfold multicounterAggregate at h'
    simp only [rateBranch, h', h, if_true]
  · have h' := h
    unfold multicounterAggregate at h'
    simp only [rateBranch, h', h, if_false]

theorem SETNX_consumption (s : Store) (k k' : BucketKey) :
    (SETNX s k).1.consumption k' = s.consumption k' := by
  unfold SETNX Store.consumption
  cases hs : s k with
  | some b => rfl
  | none =>
    by_cases hk : k' = k
    · subst hk; simp [Store.put, hs]
    · simp [Store.put, hk]

theorem SETNX_none (s : Store) (k k' : BucketKey) (h : (SETNX s k).1 k' = none) :
    s k' = none ∧ k' ≠ k := by
  unfold SETNX at h
  cases hs : s k with
  | some b =>
    rw [hs] at h
    simp only at h
    exact ⟨h, fun e => by rw [e, hs] at h; cases h⟩
  | none =>
    rw [hs] at h
    simp only [Store.put] at h
    by_cases hk : k' = k
    · simp [hk] at h
    · simp only [hk, if_false] at h
      exact ⟨h, hk⟩

/-- The procedure `slidingwindowScript` raises on every call that finds a
configured limit. -/
theorem slidingwindowScript_raises (s : Store) (quota : String)
    ( key_prefix : String × Classify) (timestamp ttl : Int) :
    (slidingwindowScript s (some quota) key_prefix timestamp ttl).reply = none :=
  rfl

theorem specSlidingWalk_le (s : Store) (service : String) (ts ttl : Int)
    (l : List Nat) (sum : Nat) :
    specSlidingWalk s service ts ttl l sum
      ≤ sum + (l.map (fun (i : Nat) =>
          s.consumption ⟨service, Classify.rate, ts - (i : Int) * (ttl * 1000 / 10)⟩)).sum := by
  induction l generalizing sum with
  | nil => simp [specSlidingWalk]
  | cons i l ih =>
    unfold specSlidingWalk
    simp only [List.map_cons, List.sum_cons]
    cases hs : s ⟨service, Classify.rate, ts - (i : Int) * (ttl * 1000 / 10)⟩ with
    | none => simp only; omega
    | some b =>
      have hci : s.consumption ⟨service, Classify.rate, ts - (i : Int) * (ttl * 1000 / 10)⟩
          = b.value := by
        simp [Store.consumption, hs]
      simp only [hci]
      have := ih (sum + b.value)
      omega

theorem specSlidingWalk_eq (s : Store) (service : String) (ts ttl : Int)
    (l : List Nat) (sum : Nat)
    (h : l.Pairwise (fun (i j : Nat) =>
      s ⟨service, Classify.rate, ts - (i : Int) * (ttl * 1000 / 10)⟩ = none →
      s.consumption ⟨service, Classify.rate, ts - (j : Int) * (ttl * 1000 / 10)⟩ = 0)) :
    specSlidingWalk s service ts ttl l sum
      = sum + (l.map (fun (i : Nat) =>
          s.consumption ⟨service, Classify.rate, ts - (i : Int) * (ttl * 1000 / 10)⟩)).sum := by
  induction l generalizing sum with
  | nil => simp [specSlidingWalk]
  | cons i l ih =>
    rw [List.pairwise_cons] at h
    unfold specSlidingWalk
    simp only [List.map_cons, List.sum_cons]
    cases hs : s ⟨service, Classify.rate, ts - (i : Int) * (ttl * 1000 / 10)⟩ with
    | none =>
      have hzero : (l.map (fun (j : Nat) =>
          s.consumption ⟨service, Classify.rate, ts - (j : Int) * (ttl * 1000 / 10)⟩)).sum
          = 0 := by
        apply List.sum_eq_zero
        intro x hx
        obtain ⟨j, hj, rfl⟩ := List.mem_map.mp hx
        exact h.1 j hj hs
      have hci : s.consumption
          ⟨service, Classify.rate, ts - (i : Int) * (ttl * 1000 / 10)⟩ = 0 := by
        simp [Store.consumption, hs]
      simp only [hzero, hci]
      omega
    | some b =>
      have hci : s.consumption
          ⟨service, Classify.rate, ts - (i : Int) * (ttl * 1000 / 10)⟩ = b.value := by
        simp [Store.consumption, hs]
      simp only [hci]
      rw [ih _ h.2]
      omega

theorem multicounterAggregate_eq (s : Store) (service : String) (timestamp ttl : Int) :
    multicounterAggregate s service timestamp ttl = slidingSum s service timestamp ttl := by
  unfold multicounterAggregate
  simp only [setnx_expire, rateConsume_eq]
  exact slidingSum_congr s _ service timestamp ttl
    (fun k => createIfAbsent_consumption s _ ttl k)

theorem slidingSum_setnx (s : Store) (service : String) (timestamp ttl : Int) :
    ((List.range 10).map (fun (i : Nat) =>
      (SETNX s ⟨service, Classify.rate, timestamp⟩).1.consumption
        ⟨service, Classify.rate, timestamp - (i : Int) * (ttl * 1000 / 10)⟩)).sum
      = slidingSum s service timestamp ttl := by
  unfold slidingSum
  simp only [SETNX_consumption]

/-- C18 as stated fails: in the gap example (current segment 2, the segment one
back missing, the segment two back 3) the multi-counter's aggregate is 5 while
the 4.3 sliding sum, which stops at the missing segment, is 2; against limit 4
the 4.3 check admits (2 < 4) and the multi-counter reports over-limit. The
sliding-window procedure itself reaches no decision at all: it raises an
error. -/
theorem aggregates_differ_at_gap :
    multicounterAggregate gapStore "c1" 1704067320000 60 = 5 ∧
    specSlidingSum gapStore "c1" 1704067320000 60 = 2 ∧
    (specSlidingSum gapStore "c1" 1704067320000 60 : Int) < 4 ∧
    (multicounter gapStore "c1" [] [⟨1704067320000, 60, 4⟩]).reply
      = some [RVal.int 0, RVal.str "rate", RVal.int 60, RVal.int 4] ∧
    (slidingwindowScript gapStore (some "4") ("c1", Classify.rate) 1704067320 60).reply
      = none := by
  decide

/-- C18, amended. The aggregate the multi-counter computes for a rate rule is the
sum of all ten segments walking backward from ts, an absent segment counted as
0 and not ending the walk. The 4.3 sliding sum for the same store, window and
segment timestamp, which stops at the first missing segment, is never larger,
and the two are equal whenever every segment that comes after a missing one
among the ten holds no consumption. The aggregate is the number the reply of
the multi-counter is made from: the rule is admitted, with the aggregate plus
one as its consumption, exactly when the aggregate is below the limit. -/
theorem aggregate_refinement (s : Store) (service : String) (timestamp ttl : Int) :
    multicounterAggregate s service timestamp ttl = slidingSum s service timestamp ttl ∧
    specSlidingSum s service timestamp ttl ≤ multicounterAggregate s service timestamp ttl ∧
    ((∀ j : Nat, j < 10 → ∀ i : Nat, i < j → 0 < i →
        s ⟨service, Classify.rate, timestamp - (i : Int) * (ttl * 1000 / 10)⟩ = none →
        s.consumption ⟨service, Classify.rate, timestamp - (j : Int) * (ttl * 1000 / 10)⟩
          = 0) →
      specSlidingSum s service timestamp ttl
        = multicounterAggregate s service timestamp ttl) ∧
    (∀ limit : Int,
      (multicounter s service [] [⟨timestamp, ttl, limit⟩]).reply
        = (if (multicounterAggregate s service timestamp ttl : Int) < tonumber limit then
            some [RVal.int 1, RVal.str "rate", RVal.int ttl,
              RVal.int (replyInteger (tonumber limit)),
              RVal.int ((multicounterAggregate s service timestamp ttl : Int) + 1)]
          else some [RVal.int 0, RVal.str "rate", RVal.int ttl,
            RVal.int (replyInteger (tonumber limit))])) := by
  refine ⟨multicounterAggregate_eq s service timestamp ttl, ?_, ?_, ?_⟩
  rotate_right
  · intro limit
    rw [multicounterAggregate_eq]
    exact rate_single s service ⟨timestamp, ttl, limit⟩
  · rw [multicounterAggregate_eq, ← slidingSum_setnx]
    unfold specSlidingSum
    have h := specSlidingWalk_le (SETNX s ⟨service, Classify.rate, timestamp⟩).1
      service timestamp ttl (List.range 10) 0
    simpa using h
  · intro hgap
    rw [multicounterAggregate_eq, ← slidingSum_setnx]
    unfold specSlidingSum
    have hpair : (List.range 10).Pairwise (fun (i j : Nat) =>
        (SETNX s ⟨service, Classify.rate, timestamp⟩).1
          ⟨service, Classify.rate, timestamp - (i : Int) * (ttl * 1000 / 10)⟩ = none →
        (SETNX s ⟨service, Classify.rate, timestamp⟩).1.consumption
          ⟨service, Classify.rate, timestamp - (j : Int) * (ttl * 1000 / 10)⟩ = 0) := by
      apply List.Pairwise.imp_of_mem _ (List.pairwise_lt_range 10)
      intro i j _ hj hij hnone
      obtain ⟨hs, hne⟩ := SETNX_none s _ _ hnone
      have hi0 : 0 < i := by
        rcases Nat.eq_zero_or_pos i with h0 | h0
        · exfalso
          apply hne
          subst h0
          simp
        · exact h0
      rw [SETNX_consumption]
      exact hgap j (List.mem_range.mp hj) i hij hi0 hs
    have h := specSlidingWalk_eq (SETNX s ⟨service, Classify.rate, timestamp⟩).1
      service timestamp ttl (List.range 10) 0 hpair
    simpa using h

/-- Witness of the amended C18 on the commit example, where only the current
segment and the one before it exist, so the 4.3 sliding sum equals the
multi-counter's aggregate; and on the sliding example, whose existing segments
0, 3 and 9 are separated by missing ones, where it is below it. -/
theorem aggregate_refinement_witness :
    (∀ j : Nat, j < 10 → ∀ i : Nat, i < j → 0 < i →
        commitStore ⟨"c1", Classify.rate, (1704067266000 : Int) - (i : Int) * (60 * 1000 / 10)⟩
          = none →
        commitStore.consumption
          ⟨"c1", Classify.rate, (1704067266000 : Int) - (j : Int) * (60 * 1000 / 10)⟩ = 0) ∧
    specSlidingSum commitStore "c1" 1704067266000 60
      = multicounterAggregate commitStore "c1" 1704067266000 60 ∧
    specSlidingSum slideStore "c1" 1704067320000 60
      ≤ multicounterAggregate slideStore "c1" 1704067320000 60 :=
  ⟨by decide,
   (aggregate_refinement commitStore "c1" 1704067266000 60).2.2.1 (by decide),
   (aggregate_refinement slideStore "c1" 1704067320000 60).2.1⟩

/-! ## At most the limit in every sliding window -/

theorem windowSum_shift (f : Int → Nat) (t seg : Int) (n : Nat) :
    windowSum f (t + seg) seg (n + 1) = f (t + seg) + windowSum f t seg n := by
  unfold windowSum
  rw [List.range_succ_eq_map, List.map_cons, List.sum_cons, List.map_map]
  congr 1
  · simp
  · congr 1
    apply List.map_congr_left
    intro i _
    simp only [Function.comp]
    congr 1
    push_cast
    ring

theorem windowSum_mono (f : Int → Nat) (t seg : Int) (n : Nat) :
    windowSum f t seg n ≤ windowSum f t seg (n + 1) := by
  unfold windowSum
  rw [List.range_succ, List.map_append, List.sum_append]
  omega

/-- Once nothing is recorded after `ts`, a window that ends later than `ts`
holds at most what the window ending at `ts` holds. -/
theorem windowSum_later (f : Int → Nat) (ts seg : Int) (hseg : 0 < seg)
    (hzero : ∀ u, ts < u → f u = 0) (i : Nat) :
    windowSum f (ts + (i : Int) * seg) seg 10 ≤ windowSum f ts seg 10 := by
  induction i with
  | zero => simp
  | succ i ih =>
    have he : ts + ((i + 1 : Nat) : Int) * seg = (ts + (i : Int) * seg) + seg := by
      push_cast; ring
    rw [he, windowSum_shift]
    have hz : f (ts + (i : Int) * seg + seg) = 0 := by
      apply hzero
      have : 0 ≤ (i : Int) * seg := by positivity
      omega
    have hm : windowSum f (ts + (i : Int) * seg) seg 9
        ≤ windowSum f (ts + (i : Int) * seg) seg 10 :=
      windowSum_mono f (ts + (i : Int) * seg) seg 9
    omega

theorem sum_indicator_nodup (l : List Nat) (hl : l.Nodup) (i0 : Nat) :
    (l.map (fun (i : Nat) => if i = i0 then 1 else 0)).sum = if i0 ∈ l then 1 else 0 := by
  induction l with
  | nil => simp
  | cons a l ih =>
    rw [List.nodup_cons] at hl
    rw [List.map_cons, List.sum_cons, ih hl.2]
    by_cases ha : a = i0
    · subst ha
      simp [hl.1]
    · have ha' : ¬ i0 = a := fun e => ha e.symm
      simp [ha, ha']

/-- Recording one more unit at `ts` adds one to the windows that contain `ts`
and nothing to the others. -/
theorem windowSum_add_one (f : Int → Nat) (ts t seg : Int) (hseg : 0 < seg) (n : Nat) :
    windowSum (fun u => f u + if u = ts then 1 else 0) t seg n
      = windowSum f t seg n + (if ∃ i : Nat, i < n ∧ t = ts + (i : Int) * seg then 1 else 0) := by
  have hsplit : windowSum (fun u => f u + if u = ts then 1 else 0) t seg n
      = windowSum f t seg n
        + ((List.range n).map (fun (i : Nat) => if t - (i : Int) * seg = ts then 1 else 0)).sum := by
    unfold windowSum
    rw [← List.sum_map_add]
  rw [hsplit]
  congr 1
  by_cases hex : ∃ i : Nat, i < n ∧ t = ts + (i : Int) * seg
  · obtain ⟨i0, hi0, ht⟩ := hex
    have hcongr : (List.range n).map (fun (i : Nat) => if t - (i : Int) * seg = ts then 1 else 0)
        = (List.range n).map (fun (i : Nat) => if i = i0 then 1 else 0) := by
      apply List.map_congr_left
      intro i _
      have hiff : t - (i : Int) * seg = ts ↔ i = i0 := by
        constructor
        · intro h
          have h2 : ((i0 : Int) - (i : Int)) * seg = 0 := by rw [ht] at h; linarith
          rcases mul_eq_zero.mp h2 with h3 | h3
          · omega
          · omega
        · intro h
          subst h
          rw [ht]; ring
      simp only [hiff]
    rw [hcongr, sum_indicator_nodup _ (List.nodup_range n),
      if_pos (List.mem_range.mpr hi0), if_pos ⟨i0, hi0, ht⟩]
  · have hzero : (List.range n).map (fun (i : Nat) => if t - (i : Int) * seg = ts then 1 else 0)
        = (List.range n).map (fun _ => 0) := by
      apply List.map_congr_left
      intro i hi
      have : ¬ t - (i : Int) * seg = ts := by
        intro h
        exact hex ⟨i, List.mem_range.mp hi, by linarith⟩
      simp [this]
    rw [hzero]
    simp [hex]

/-- What one evaluation of a single rate rule does to the consumption of every
key. -/
theorem rate_single_consumption (s : Store) (service : String) (r : Rule) (k : BucketKey) :
    (multicounter s service [] [r]).store.consumption k
      = s.consumption k
        + (if (slidingSum s service r.timestamp r.ttl : Int) < (tonumber r.limit) ∧
              k = ⟨service, Classify.rate, r.timestamp⟩ then 1 else 0) := by
  have httl : ∀ x ∈ ([] : List Rule), 0 < x.ttl := by simp
  have hcl : classified [] [r] = [(Classify.rate, r)] := rfl
  by_cases hlt : (slidingSum s service r.timestamp r.ttl : Int) < (tonumber r.limit)
  · have hpass : ∀ cr ∈ classified [] [r], passes s service cr := by
      intro cr hcr
      rw [hcl, List.mem_singleton] at hcr
      subst hcr
      exact hlt
    obtain ⟨_, s1, hc, hstore⟩ := multicounter_pass s service [] [r] httl hpass
    rw [hstore, foldl_INCR_consumption, CreatedBy.consumption service _ s s1 hc]
    simp only [ruleKeys, hcl, List.map_cons, List.map_nil, ruleKey, hlt, true_and]
    by_cases hk : k = ⟨service, Classify.rate, r.timestamp⟩
    · subst hk; simp
    · have hk' : ¬ (⟨service, Classify.rate, r.timestamp⟩ : BucketKey) = k := fun e => hk e.symm
      simp [hk, hk']
  · have hfail : ¬ passes s service (Classify.rate, r) := hlt
    rw [multicounter_fail_consumption s service [] [r] [] [] (Classify.rate, r) hcl httl
      (by simp) hfail k]
    simp [hlt]

theorem slidingSum_eq_windowSum (s : Store) (service : String) (t ttl : Int) :
    slidingSum s service t ttl
      = windowSum (fun u => s.consumption ⟨service, Classify.rate, u⟩) t (ttl * 1000 / 10) 10 :=
  rfl

/-- One evaluation keeps every window at or below the Lua number of the limit,
when nothing is recorded after the timestamp of the evaluation. -/
theorem rate_step (s : Store) (service : String) (ttl limit ts : Int) (httl : 0 < ttl)
    (hzero : ∀ u, ts < u → s.consumption ⟨service, Classify.rate, u⟩ = 0)
    (hbound : ∀ t, (slidingSum s service t ttl : Int) ≤ tonumber limit) (t : Int) :
    (slidingSum (multicounter s service [] [⟨ts, ttl, limit⟩]).store service t ttl : Int)
      ≤ tonumber limit := by
  have hseg : 0 < ttl * 1000 / 10 := by omega
  by_cases hlt : (slidingSum s service ts ttl : Int) < tonumber limit
  · have hfun : (fun u => (multicounter s service [] [⟨ts, ttl, limit⟩]).store.consumption
          ⟨service, Classify.rate, u⟩)
        = (fun u => s.consumption ⟨service, Classify.rate, u⟩ + if u = ts then 1 else 0) := by
      funext u
      rw [rate_single_consumption]
      simp [hlt]
    rw [slidingSum_eq_windowSum, hfun, windowSum_add_one _ ts t _ hseg 10]
    by_cases hex : ∃ i : Nat, i < 10 ∧ t = ts + (i : Int) * (ttl * 1000 / 10)
    · obtain ⟨i, _, ht⟩ := hex
      have hlater := windowSum_later (fun u => s.consumption ⟨service, Classify.rate, u⟩) ts
        (ttl * 1000 / 10) hseg hzero i
      rw [← ht, ← slidingSum_eq_windowSum, ← slidingSum_eq_windowSum] at hlater
      rw [if_pos ⟨i, ‹_›, ht⟩, ← slidingSum_eq_windowSum]
      push_cast
      omega
    · rw [if_neg hex, ← slidingSum_eq_windowSum]
      simpa using hbound t
  · have hcongr := slidingSum_congr s (multicounter s service [] [⟨ts, ttl, limit⟩]).store
      service t ttl (fun k => by rw [rate_single_consumption]; simp [hlt])
    rw [hcongr]
    exact hbound t

theorem serialRate_bound (service : String) (ttl limit : Int) (httl : 0 < ttl)
    (tss : List Int) (s : Store)
    (hzero : ∀ ts ∈ tss, ∀ u, ts < u → s.consumption ⟨service, Classify.rate, u⟩ = 0)
    (hbound : ∀ t, (slidingSum s service t ttl : Int) ≤ tonumber limit)
    (hsorted : tss.Pairwise (fun a b => a ≤ b)) (t : Int) :
    (slidingSum (serialRate service ttl limit s tss) service t ttl : Int) ≤ tonumber limit := by
  induction tss generalizing s with
  | nil => exact hbound t
  | cons ts tss ih =>
    rw [List.pairwise_cons] at hsorted
    unfold serialRate
    apply ih
    · intro ts' hts' u hu
      rw [rate_single_consumption]
      have hne : ¬ u = ts := by
        have := hsorted.1 ts' hts'
        omega
      have hz := hzero ts' (List.mem_cons_of_mem _ hts') u hu
      simp [hz, hne]
    · exact rate_step s service ttl limit ts httl
        (hzero ts (List.mem_cons_self _ _)) hbound
    · exact hsorted.2

/-- One evaluation of a single rate rule adds at most one to any window. -/
theorem rate_step_le (s : Store) (service : String) (ttl limit ts : Int) (httl : 0 < ttl)
    (t : Int) :
    slidingSum (multicounter s service [] [⟨ts, ttl, limit⟩]).store service t ttl
      ≤ slidingSum s service t ttl + 1 := by
  have hseg : 0 < ttl * 1000 / 10 := by omega
  by_cases hlt : (slidingSum s service ts ttl : Int) < tonumber limit
  · have hfun : (fun u => (multicounter s service [] [⟨ts, ttl, limit⟩]).store.consumption
          ⟨service, Classify.rate, u⟩)
        = (fun u => s.consumption ⟨service, Classify.rate, u⟩ + if u = ts then 1 else 0) := by
      funext u
      rw [rate_single_consumption]
      simp [hlt]
    rw [slidingSum_eq_windowSum, hfun, windowSum_add_one _ ts t _ hseg 10,
      ← slidingSum_eq_windowSum]
    split <;> omega
  · have hcongr := slidingSum_congr s (multicounter s service [] [⟨ts, ttl, limit⟩]).store
      service t ttl (fun k => by rw [rate_single_consumption]; simp [hlt])
    rw [hcongr]
    omega

/-- No window grows by more than the number of evaluations made. -/
theorem serialRate_le_length (service : String) (ttl limit : Int) (httl : 0 < ttl)
    (tss : List Int) (s : Store) (t : Int) :
    slidingSum (serialRate service ttl limit s tss) service t ttl
      ≤ slidingSum s service t ttl + tss.length := by
  induction tss generalizing s with
  | nil => simp [serialRate]
  | cons ts tss ih =>
    unfold serialRate
    have h1 := ih (multicounter s service [] [⟨ts, ttl, limit⟩]).store
    have h2 := rate_step_le s service ttl limit ts httl t
    rw [List.length_cons]
    omega

/-- C19. Rate at-most-N over every sliding window: starting from a store with no
rate bucket of the client, after any serial sequence of multi-counter
evaluations of a single rate rule with limit L ≥ 0 and positive window ttl,
issued at timestamps that never decrease, for every timestamp t the sum of the
10 buckets at t − i·(ttl·1000/10), i = 0..9, is at most the Lua number of L,
and it is at most L itself whenever L ≤ 2^53 or no more than 2^53 evaluations
were made (beyond both, a Lua number no longer holds L exactly). -/
theorem rate_at_most_limit (s : Store) (service : String) (ttl limit : Int) (tss : List Int)
    (hs : ∀ u, s ⟨service, Classify.rate, u⟩ = none) (httl : 0 < ttl) (hlimit : 0 ≤ limit)
    (hsorted : tss.Pairwise (fun a b => a ≤ b)) (t : Int) :
    (slidingSum (serialRate service ttl limit s tss) service t ttl : Int) ≤ tonumber limit ∧
    (limit ≤ 9007199254740992 ∨ tss.length ≤ 9007199254740992 →
      (slidingSum (serialRate service ttl limit s tss) service t ttl : Int) ≤ limit) := by
  have hcons : ∀ u, s.consumption ⟨service, Classify.rate, u⟩ = 0 := by
    intro u
    simp [Store.consumption, hs u]
  have hzero : ∀ t', slidingSum s service t' ttl = 0 := by
    intro t'
    unfold slidingSum
    apply List.sum_eq_zero
    intro x hx
    obtain ⟨i, _, rfl⟩ := List.mem_map.mp hx
    exact hcons _
  have hround : (slidingSum (serialRate service ttl limit s tss) service t ttl : Int)
      ≤ tonumber limit := by
    apply serialRate_bound service ttl limit httl tss s (fun _ _ u _ => hcons u) _ hsorted t
    intro t'
    rw [hzero t']
    simpa using tonumber_nonneg limit hlimit
  refine ⟨hround, ?_⟩
  intro hrange
  by_cases hl : limit ≤ 9007199254740992
  · rw [tonumber_exact limit (by omega) hl] at hround
    exact hround
  · have hlen : tss.length ≤ 9007199254740992 := by
      rcases hrange with h | h
      · exact absurd h hl
      · exact h
    have h := serialRate_le_length service ttl limit httl tss s t
    rw [hzero t] at h
    omega

/-- Witness of C19: limit 2 over a 60 s window, five evaluations in three
consecutive segments; the window that ends at the last segment holds 2. -/
theorem rate_at_most_limit_witness :
    ((∀ u, Store.empty ⟨"c1", Classify.rate, u⟩ = none) ∧ (0 : Int) < 60 ∧ (0 : Int) ≤ 2 ∧
      [(1704067320000 : Int), 1704067320000, 1704067326000, 1704067326000,
        1704067332000].Pairwise (fun a b => a ≤ b)) ∧
    slidingSum (serialRate "c1" 60 2 Store.empty
      [1704067320000, 1704067320000, 1704067326000, 1704067326000, 1704067332000])
      "c1" 1704067332000 60 = 2 ∧
    (slidingSum (serialRate "c1" 60 2 Store.empty
      [1704067320000, 1704067320000, 1704067326000, 1704067326000, 1704067332000])
      "c1" 1704067332000 60 : Int) ≤ 2 :=
  ⟨⟨fun _ => rfl, by decide, by decide, by decide⟩, by decide,
   (rate_at_most_limit Store.empty "c1" 60 2
     [1704067320000, 1704067320000, 1704067326000, 1704067326000, 1704067332000]
     (fun _ => rfl) (by decide) (by decide) (by decide) 1704067332000).2
     (Or.inl (by decide))⟩

/-! ## The key `CheckQuota` reads is not the key `PutConfig` writes -/

/-- The string key read by the counter procedure is longer than the name of the
hash written by `PutConfig`, whatever the client and the period. -/
theorem counterConfigName_ne (key period : String) :
    counterConfigName key period ≠ configHashName key Classify.quota := by
  intro h
  have hl := congrArg String.length h
  simp only [counterConfigName, configHashName, String.length_append] at hl
  have h8 : "_config_".length = 8 := by decide
  omega

/-! ## Rules that share a bucket -/

/-- C20, the code at the failing input: 50 ms after 2024-01-01 00:01:00 UTC the
second and the minute quota rule get the same aligned timestamp 1704067260000,
and so do the second and the minute rate rule; `Check` on a client with the
quota rules second ↦ 5 and minute ↦ 5 and an empty store admits the request
and leaves the one bucket `c1_quota_1704067260000` at 2. -/
theorem aligned_periods_share_bucket :
    ConvertQuotaPeriod "second" 1704067260050 = (1704067260000, 1) ∧
    ConvertQuotaPeriod "minute" 1704067260050 = (1704067260000, 60) ∧
    ConvertRatePeriod "second" 1704067260050 = some (1704067260000, 1) ∧
    ConvertRatePeriod "minute" 1704067260050 = some (1704067260000, 60) ∧
    (Check 1704067260050 Store.empty "c1" [("second", 5), ("minute", 5)] []).2
      = CheckOutcome.results [⟨false, "quota", 4, 1, 5⟩, ⟨false, "quota", 4, 60, 5⟩] ∧
    (Check 1704067260050 Store.empty "c1" [("second", 5), ("minute", 5)] []).1.consumption
      ⟨"c1", Classify.quota, 1704067260000⟩ = 2 := by
  decide

end RateLimiter
